import Mathlib

/-!
# acrnprobe `sender.c`: the crashlog sender

A shallow embedding of `tools/acrn-crashlog/acrnprobe/sender.c` and the
properties of its log-collection strategies and event handlers.

Conventions of the embedding.

* The handlers talk to the outside world only through calls to other
  translation units (`fsutils`, `history`, `probeutils`, ...).  Every such
  call that checks the quota or changes the world is recorded, in program
  order, in a `Trace`; every answer the world gives is an oracle of `World`
  and may depend on the trace so far.
* A handler maps the trace before the call to the trace after it.  Where the
  C code would dereference `NULL`, read an indeterminate value or overrun a
  fixed buffer, the embedding returns `none`: the C program has no defined
  behaviour there.
* Diagnostic logging (`LOGE`, `LOGW`, `LOGD`) and the timing that only selects
  the level of a diagnostic are not part of the trace.
* `int` values are `Int` reduced to 32 bits by `toInt32`.
-/

namespace Acrnprobe

/-! ## Machine integers and C strings -/

/-- Reduction of an integer to the range of a 32-bit `int`. -/
def toInt32 (x : Int) : Int := (x + 2147483648) % 4294967296 - 2147483648

/-- The `isspace` class of the C locale. -/
def isspace (c : Char) : Bool :=
  c = ' ' || c = '\t' || c = '\n' || c = '\x0b' || c = '\x0c' || c = '\r'

/-- The `isdigit` class. -/
def isdigit (c : Char) : Bool := decide (48 ≤ c.toNat) && decide (c.toNat ≤ 57)

/-- The value of the leading decimal digits of a string, continuing `acc`. -/
def digitsVal : List Char → Int → Int
  | [], acc => acc
  | c :: s, acc => if isdigit c then digitsVal s (acc * 10 + ((c.toNat : Int) - 48)) else acc

/-- The sign and digits part of `atoi`, after leading white space. -/
def atoiSigned : List Char → Int
  | '-' :: r => - digitsVal r 0
  | '+' :: r => digitsVal r 0
  | r => digitsVal r 0

/-- The result of `strtol` for the exact value `x` where `long` has 64 bits:
`x` itself, or `LONG_MIN` / `LONG_MAX` when `x` is out of range. -/
def strtol_clamp (x : Int) : Int :=
  if x < -9223372036854775808 then -9223372036854775808
  else if 9223372036854775807 < x then 9223372036854775807
  else x

/-- The C function `atoi` of glibc, `(int) strtol(s, NULL, 10)`: optional white
space, optional sign, decimal digits; the value saturates to a `long` and is
then converted to an `int`. -/
def atoi (s : String) : Int :=
  toInt32 (strtol_clamp (atoiSigned (s.data.dropWhile isspace)))

/-- The C call `strstr(hay, needle)` as the offset of the first occurrence of `needle`. -/
def strstr : List Char → List Char → Option Nat
  | [], needle => if needle = [] then some 0 else none
  | c :: hay, needle =>
    if needle.isPrefixOf (c :: hay) then some 0
    else (strstr hay needle).map (· + 1)

/-- The C call `strrchr(s, c)` as the offset of the last occurrence of `c`. -/
def strrchr : List Char → Char → Option Nat
  | [], _ => none
  | x :: s, c =>
    match strrchr s c with
    | some i => some (i + 1)
    | none => if x = c then some 0 else none

/-- The C test `strncmp(a, b, n) == 0`. -/
def strncmp_eq : List Char → List Char → Nat → Bool
  | _, _, 0 => true
  | [], [], _ + 1 => true
  | x :: a, y :: b, n + 1 => x == y && strncmp_eq a b n
  | _, _, _ + 1 => false

/-! ## Data model (the fields of `load_conf.h` and `event_queue.h` that `sender.c` uses) -/

/-- A log source `struct log_t`; `lines` may be `NULL`.  The `get` member is
bound to `crashlog_get_log` by `crashlog_send` before any handler runs, so the
handlers below call `crashlog_get_log` directly. -/
structure log_t where
  name : String
  type : String
  path : String
  lines : Option String
  deriving DecidableEq

/-- A trigger `struct trigger_t`. -/
structure trigger_t where
  type : String
  path : String
  deriving DecidableEq

/-- A crash description `struct crash_t`; `log` holds the slots of its log
array, an unused slot being `NULL`.  The `reclassify` member is the oracle
`World.reclassify`, which receives the crash it belongs to. -/
structure crash_t where
  name : String
  trigger : trigger_t
  log : List (Option log_t)
  deriving DecidableEq

/-- The uptime description `struct uptime_t`. -/
structure uptime_t where
  path : String
  frequency : String
  deriving DecidableEq

/-- The entry point a sender is bound to by `init_sender`. -/
inductive send_fn where
  | crashlog_send
  deriving DecidableEq

/-- A sender `struct sender_t`. -/
structure sender_t where
  name : String
  outdir : String
  spacequota : String
  uptime : Option uptime_t
  log_vmrecordid : Option String
  send : Option send_fn
  deriving DecidableEq

/-- An event `struct event_t` of type `CRASH`: `priv` is the `private` member,
a `struct crash_t *`; `dir` may be `NULL`. -/
structure event_t where
  channel : String
  path : String
  priv : crash_t
  dir : Option String
  deriving DecidableEq

/-- The directory modes of `generate_log_dir`. -/
inductive e_dir_mode where
  | MODE_CRASH
  | MODE_STATS
  | MODE_VMEVENT
  deriving DecidableEq

/-- The calls `sender.c` makes that check the quota or change the world. -/
inductive Effect where
  | space_available (outdir : String) (quota : Int) (result : Bool)
  | hist_raise_infoerror (type : String)
  | hist_raise_event (event type : String) (log : Option String) (lastuptime key : String)
  | generate_log_dir (mode : e_dir_mode) (key : String) (result : Option String)
  | generate_crashfile (dir event key type : String) (data0 data1 data2 : Option String)
  | do_copy_tail (src des : String) (limit : Int)
  | do_copy_eof (src des : String)
  | exec_out2file (des cmd : String)
  | overwrite_file (des : String) (value : Option String)
  | debugfs_cmd (loop_dev cmd : String)
  | mkdir_p (path : String)
  | init_properties (sender : String)
  | open_creat (path : String)
  | prepare_history
  deriving DecidableEq

/-- The calls made so far, oldest first. -/
abbrev Trace := List Effect

/-- The result of `lsdir`: a negative count, or the full names it stored. -/
inductive lsdir_result where
  | failed (err : Int)
  | listed (files : List String)
  deriving DecidableEq

/-- The answers of the world outside `sender.c`.  Each may depend on the calls
made so far. -/
structure World where
  /-- whether `asprintf` / `strdup` producing the given string succeeds -/
  alloc : Trace → String → Bool
  get_sender_by_name : String → Option sender_t
  space_available : Trace → String → Int → Bool
  get_uptime_string : Trace → String
  /-- the bytes of the mapped file, or `NULL` -/
  mmap_file : Trace → String → Option String
  lsdir : Trace → String → Nat → lsdir_result
  reclassify : Trace → crash_t → String →
    Option (crash_t × Option String × Option String × Option String)
  generate_event_id : Trace → String → String → Option String
  generate_log_dir : Trace → e_dir_mode → String → Option String
  swupdated : Trace → Option sender_t → Bool
  read_startupreason : Trace → String
  loop_dev : String
  directory_exists : Trace → String → Bool
  mkdir_p : Trace → String → Int
  errno : Trace → Int
  init_properties : Trace → sender_t → Int
  open_creat : Trace → String → Int
  prepare_history : Trace → Int

/-- The call of `asprintf` (and `strdup`) of the string `s`: `none` when the allocation fails. -/
def asprintf (w : World) (tr : Trace) (s : String) : Option String :=
  if w.alloc tr s then some s else none

/-! ## Mapped files -/

/-- A mapped file `struct mm_file_t`. -/
structure mm_file_t where
  path : String
  content : String
  deriving DecidableEq

/-- The lines of a text, each with its terminating newline when it has one. -/
def linesOf : List Char → List (List Char)
  | [] => []
  | c :: s =>
    if c = '\n' then [c] :: linesOf s
    else
      match linesOf s with
      | [] => [[c]]
      | l :: ls => (c :: l) :: ls

/-- Modelled from the spec: `mm_count_lines` of `fsutils` is not in the source
tree; it counts the total lines `L` of the mapped file. -/
def mm_count_lines (m : mm_file_t) : Int := ((linesOf m.content.data).length : Int)

/-- Modelled from the spec: `mm_get_line` of `fsutils` is not in the source
tree; it points at the start of the 1-based line `n`, so that the text from it
runs from that line to the end of the file; `NULL` outside `1..L`. -/
def mm_get_line (m : mm_file_t) (n : Int) : Option String :=
  if 1 ≤ n ∧ n ≤ mm_count_lines m then
    some (String.mk ((linesOf m.content.data).drop (n - 1).toNat).flatten)
  else none

/-! ## Log collection -/

/-- The function `get_log_file_complete` (lines 28-49). -/
def get_log_file_complete (w : World) (log : log_t) (desdir : String) (tr : Trace) : Trace :=
  match asprintf w tr (desdir ++ "/" ++ log.name) with
  | none => tr
  | some des => tr ++ [Effect.do_copy_tail log.path des 0]

/-- The function `get_log_file_tail` (lines 51-97); `atoi(log->lines)` has no
defined behaviour when `log->lines` is `NULL`. -/
def get_log_file_tail (w : World) (log : log_t) (desdir : String) (tr : Trace) : Option Trace :=
  match log.lines with
  | none => none
  | some ls =>
    let lines := atoi ls
    let timebuf := w.get_uptime_string tr
    match asprintf w tr (desdir ++ "/" ++ log.name ++ "_" ++ timebuf) with
    | none => some tr
    | some des =>
      match w.mmap_file tr log.path with
      | none => some tr
      | some content =>
        let mfile : mm_file_t := { path := log.path, content := content }
        let file_lines := mm_count_lines mfile
        if file_lines ≤ 0 then some tr
        else
          let start_line := toInt32 (max (toInt32 (file_lines - lines)) 0 + 1)
          let start := mm_get_line mfile start_line
          some (tr ++ [Effect.overwrite_file des start])

/-- The function `get_log_file` (lines 99-113). -/
def get_log_file (w : World) (log : log_t) (desdir : String) (tr : Trace) : Option Trace :=
  match log.lines with
  | none => some (get_log_file_complete w log desdir tr)
  | some ls =>
    if atoi ls > 0 then get_log_file_tail w log desdir tr
    else some (get_log_file_complete w log desdir tr)

/-- The function `get_log_node` (lines 220-242). -/
def get_log_node (w : World) (log : log_t) (desdir : String) (tr : Trace) : Trace :=
  match asprintf w tr (desdir ++ "/" ++ log.name) with
  | none => tr
  | some des => tr ++ [Effect.do_copy_eof log.path des]

/-- The function `out_via_fork` (lines 244-257). -/
def out_via_fork (w : World) (log : log_t) (desdir : String) (tr : Trace) : Trace :=
  match asprintf w tr (desdir ++ "/" ++ log.name) with
  | none => tr
  | some des => tr ++ [Effect.exec_out2file des log.path]

/-- The function `get_log_cmd` (lines 259-262). -/
def get_log_cmd (w : World) (log : log_t) (desdir : String) (tr : Trace) : Trace :=
  out_via_fork w log desdir tr

/-- The variables the scan loop of `get_log_rotation` updates. -/
structure rotation_state where
  target_num : Int
  target_file : Option String
  toget : log_t
  tr : Trace
  deriving DecidableEq

/-- The body of the `for` loop of `get_log_rotation` over `files[i..count)`,
with `pfx` and `sfx` the `prefix` and `suffix` of the source.  `strrchr(..) + 1`
is used without a `NULL` test, so an entry without `/`, or a matching name
without `.`, leaves the behaviour undefined. -/
def get_log_rotation_scan (w : World) (pfx sfx : List Char) (desdir : String) :
    List String → rotation_state → Option rotation_state
  | [], st => some st
  | file :: files, st =>
    match strrchr file.data '/' with
    | none => none
    | some i =>
      let name := file.data.drop (i + 1)
      match strstr name pfx with
      | none => get_log_rotation_scan w pfx sfx desdir files st
      | some _ =>
        match strrchr name '.' with
        | none => none
        | some j =>
          let number := atoi (String.mk (name.drop (j + 1)))
          if strncmp_eq sfx "biggest".data 7 then
            if st.target_num = -1 ∨ number > st.target_num then
              get_log_rotation_scan w pfx sfx desdir files
                { st with target_file := some file, target_num := number }
            else get_log_rotation_scan w pfx sfx desdir files st
          else if strncmp_eq sfx "smallest".data 8 then
            if st.target_num = -1 ∨ number < st.target_num then
              get_log_rotation_scan w pfx sfx desdir files
                { st with target_file := some file, target_num := number }
            else get_log_rotation_scan w pfx sfx desdir files st
          else if strncmp_eq sfx "all".data 3 then
            let toget : log_t := { st.toget with path := file, name := String.mk name }
            match get_log_file w toget desdir st.tr with
            | none => none
            | some tr1 =>
              get_log_rotation_scan w pfx sfx desdir files { st with toget := toget, tr := tr1 }
          else get_log_rotation_scan w pfx sfx desdir files st

/-- The first part of `get_log_rotation` (lines 135-164): the split of the
copy of `log->path` into `dir`, `prefix` and `suffix`, as in
`/tmp/hvlog/hvlog_cur.[biggest]`; `none` on each of the three `invalid path`
exits. -/
def get_log_rotation_parse (path : List Char) : Option (String × List Char × List Char) :=
  match strrchr path '/' with
  | none => none
  | some i =>
    let pfx0 := path.drop (i + 1)
    match strstr pfx0 ".[".data with
    | none => none
    | some j =>
      let sfx0 := pfx0.drop (j + 2)
      if sfx0.getLast? = some ']' then
        some (String.mk (path.take i), pfx0.take j, sfx0.dropLast)
      else none

/-- The function `get_log_rotation` (lines 115-218); `files` has
`ARRAY_SIZE(files) = 512` slots. -/
def get_log_rotation (w : World) (log : log_t) (desdir : String) (tr : Trace) : Option Trace :=
  match asprintf w tr log.path with
  | none => some tr
  | some dir0 =>
    match get_log_rotation_parse dir0.data with
    | none => some tr
    | some (dir, pfx, sfx) =>
      let st0 : rotation_state :=
        { target_num := -1, target_file := none, toget := log, tr := tr }
      match w.lsdir tr dir 512 with
      | .failed _ => some tr
      | .listed files =>
        match (if files.length > 2 then get_log_rotation_scan w pfx sfx desdir files st0
               else some st0) with
        | none => none
        | some st =>
          if strncmp_eq sfx "all".data 3 then some st.tr
          else
            match st.target_file with
            | some f => get_log_file w { st.toget with path := f } desdir st.tr
            | none => some st.tr

/-- The function `crashlog_get_log` (lines 264-299), the `get` capability of
every log. -/
def crashlog_get_log (w : World) (log : log_t) (desdir : String) (tr : Trace) : Option Trace :=
  match w.get_sender_by_name "crashlog" with
  | none => some tr
  | some crashlog =>
    let quota := atoi crashlog.spacequota
    let ok := w.space_available tr crashlog.outdir quota
    let tr1 := tr ++ [Effect.space_available crashlog.outdir quota ok]
    if !ok then some (tr1 ++ [Effect.hist_raise_infoerror "SPACE_FULL"])
    else if log.type = "file" then get_log_file w log desdir tr1
    else if log.type = "node" then some (get_log_node w log desdir tr1)
    else if log.type = "cmd" then some (get_log_cmd w log desdir tr1)
    else if log.type = "file_rotation" then get_log_rotation w log desdir tr1
    else some tr1

/-! ## The crash handler -/

/-- Modelled from the spec: the macro `to_collect_logs` of `load_conf.h` is not
in the source tree; a crash type is configured to collect logs when a log is
bound to it. -/
def to_collect_logs (crash : crash_t) : Bool := crash.log.any Option.isSome

/-- Modelled from the spec: the macro `for_each_log_collect` of `load_conf.h`
is not in the source tree; it visits the log slots of the crash in order.  The
body is that of the source: skip a `NULL` slot, else call `log->get`. -/
def for_each_log_collect (w : World) (desdir : String) :
    List (Option log_t) → Trace → Option Trace
  | [], tr => some tr
  | none :: rest, tr => for_each_log_collect w desdir rest tr
  | some log :: rest, tr =>
    match crashlog_get_log w log desdir tr with
    | none => none
    | some tr1 => for_each_log_collect w desdir rest tr1

/-- What `%s` prints for a possibly `NULL` string (glibc). -/
def fmt_s : Option String → String
  | some s => s
  | none => "(null)"

/-- The history record of a crash event. -/
def crash_record (e : event_t) (crash : crash_t) (key : String) : Effect :=
  Effect.hist_raise_event "CRASH" crash.name e.dir "" key

/-- The part of `crashlog_send_crash` from the lookup of the sender (line 361)
to the end: quota re-check, copy of the trigger file, history record. -/
def crashlog_send_crash_archive (w : World) (e : event_t) (crash : crash_t) (key : String)
    (tr : Trace) : Option (event_t × Trace) :=
  match w.get_sender_by_name "crashlog" with
  | none => some (e, tr)
  | some crashlog =>
    let quota := atoi crashlog.spacequota
    let ok := w.space_available tr crashlog.outdir quota
    let tr1 := tr ++ [Effect.space_available crashlog.outdir quota ok]
    if !ok then
      some (e, tr1 ++ [Effect.hist_raise_infoerror "SPACE_FULL", crash_record e crash key])
    else if e.channel = "inotify" then
      match asprintf w tr1 (fmt_s e.dir ++ "/" ++ e.path) with
      | none => some (e, tr1)
      | some des =>
        match asprintf w tr1 (crash.trigger.path ++ "/" ++ e.path) with
        | none => some (e, tr1)
        | some src => some (e, tr1 ++ [Effect.do_copy_tail src des 0, crash_record e crash key])
    else some (e, tr1 ++ [crash_record e crash key])

/-- The part of `crashlog_send_crash` from the call of `reclassify` (line 326)
on, with the trigger file name `trfile`. -/
def crashlog_send_crash_reclassified (w : World) (e : event_t) (trfile : String) (tr : Trace) :
    Option (event_t × Trace) :=
  match w.reclassify tr e.priv trfile with
  | none => some (e, tr)
  | some (crash, data0, data1, data2) =>
    let e1 : event_t := { e with priv := crash }
    match w.generate_event_id tr "CRASH" crash.name with
    | none => some (e1, tr)
    | some key =>
      if to_collect_logs crash || e1.channel = "inotify" then
        let d := w.generate_log_dir tr e_dir_mode.MODE_CRASH key
        let e2 : event_t := { e1 with dir := d }
        let tr1 := tr ++ [Effect.generate_log_dir e_dir_mode.MODE_CRASH key d]
        match d with
        | none => some (e2, tr1)
        | some dir =>
          let tr2 := tr1 ++
            [Effect.generate_crashfile dir "CRASH" key crash.name data0 data1 data2]
          match for_each_log_collect w dir crash.log tr2 with
          | none => none
          | some tr3 => crashlog_send_crash_archive w e2 crash key tr3
      else crashlog_send_crash_archive w e1 crash key tr

/-- The name of the trigger file that `crashlog_send_crash` computes first:
`some (some f)` when `asprintf` gives `f`, `some none` when it fails, `none`
when the trigger type is neither `file` nor `dir` (`ret` is then read without
having been set). -/
def crashlog_send_crash_trfile (w : World) (e : event_t) (tr : Trace) : Option (Option String) :=
  if e.priv.trigger.type = "file" then some (asprintf w tr e.priv.trigger.path)
  else if e.priv.trigger.type = "dir" then
    some (asprintf w tr (e.priv.trigger.path ++ "/" ++ e.path))
  else none

/-- The function `crashlog_send_crash` (lines 301-406): the event after the
call and the trace after it. -/
def crashlog_send_crash (w : World) (e : event_t) (tr : Trace) : Option (event_t × Trace) :=
  match crashlog_send_crash_trfile w e tr with
  | none => none
  | some none => some (e, tr)
  | some (some trfile) => crashlog_send_crash_reclassified w e trfile tr

/-! ## The reboot handler -/

/-- The function `crashlog_send_reboot` (lines 446-473). -/
def crashlog_send_reboot (w : World) (tr : Trace) : Trace :=
  let step1 : Option Trace :=
    if w.swupdated tr (w.get_sender_by_name "crashlog") then
      match w.generate_event_id tr "INFO" "SWUPDATE" with
      | none => none
      | some key => some (tr ++ [Effect.hist_raise_event "INFO" "SWUPDATE" none "" key])
    else some tr
  match step1 with
  | none => tr
  | some tr1 =>
    let reason := w.read_startupreason tr1
    match w.generate_event_id tr1 "REBOOT" reason with
    | none => tr1
    | some key => tr1 ++ [Effect.hist_raise_event "REBOOT" reason none "" key]

/-! ## Guest events -/

/-- The constant `ENOMEM` of `errno.h`. -/
def ENOMEM : Int := 12

/-- How `init_sender` ends: `return code`, or `exit(code)`. -/
inductive init_result where
  | returned (code : Int)
  | exited (code : Int)
  deriving DecidableEq

/-- The last step of the loop body of `init_sender` (lines 642-648): the
binding of the sender to `crashlog_send` and the opening of the history. -/
def init_sender_bind (w : World) (sender : sender_t) (tr : Trace) :
    Option init_result × sender_t × Trace :=
  if strncmp_eq sender.name.data "crashlog".data sender.name.data.length then
    let s1 : sender_t := { sender with send := some send_fn.crashlog_send }
    let tr1 := tr ++ [Effect.prepare_history]
    if w.prepare_history tr ≠ 0 then (some (.returned (-1)), s1, tr1)
    else (none, s1, tr1)
  else (none, sender, tr)

/-- The body of the loop of `init_sender` for one configured sender: the way
the function ends there, if it does, the sender as it is left, and the trace. -/
def init_sender_body (w : World) (sender : sender_t) (tr : Trace) :
    Option init_result × sender_t × Trace :=
  match asprintf w tr (sender.outdir ++ "/vmrecordid") with
  | none => (some (.returned (-ENOMEM)), sender, tr)
  | some id =>
    let s1 : sender_t := { sender with log_vmrecordid := some id }
    let tr1 := if w.directory_exists tr s1.outdir then tr else tr ++ [Effect.mkdir_p s1.outdir]
    if !w.directory_exists tr s1.outdir && decide (w.mkdir_p tr s1.outdir < 0) then
      (some (.returned (toInt32 (-(w.errno tr1)))), s1, tr1)
    else
      let tr2 := tr1 ++ [Effect.init_properties s1.name]
      if w.init_properties tr1 s1 ≠ 0 then (some (.exited (-1)), s1, tr2)
      else
        match s1.uptime with
        | some uptime =>
          let tr3 := tr2 ++ [Effect.open_creat uptime.path]
          if w.open_creat tr2 uptime.path < 0 then
            (some (.returned (toInt32 (-(w.errno tr3)))), s1, tr3)
          else init_sender_bind w s1 tr3
        | none => init_sender_bind w s1 tr2

/-- The function `init_sender` (lines 597-652) over the sender slots of the
configuration, a slot being `NULL` when unused: the way it ends, the slots as
they are left, the trace. -/
def init_sender (w : World) :
    List (Option sender_t) → Trace → init_result × List (Option sender_t) × Trace
  | [], tr => (.returned 0, [], tr)
  | none :: rest, tr =>
    let r := init_sender w rest tr
    (r.1, none :: r.2.1, r.2.2)
  | some sender :: rest, tr =>
    match init_sender_body w sender tr with
    | (some r, s1, tr1) => (r, some s1 :: rest, tr1)
    | (none, s1, tr1) =>
      let r := init_sender w rest tr1
      (r.1, some s1 :: r.2.1, r.2.2)

/-- The text after the first newline. -/
def dropLine : List Char → List Char
  | [] => []
  | c :: s => if c = '\n' then s else dropLine s

/-! ## Concrete worlds used to instantiate the theorems -/

/-- A world in which every allocation succeeds, no sender is configured and the
only readable file has the three lines `a`, `b`, `c`. -/
def w0 : World where
  alloc := fun _ _ => true
  get_sender_by_name := fun _ => none
  space_available := fun _ _ _ => true
  get_uptime_string := fun _ => "up"
  mmap_file := fun _ _ => some "a\nb\nc\n"
  lsdir := fun _ _ _ => .failed (-1)
  reclassify := fun _ _ _ => none
  generate_event_id := fun _ _ _ => none
  generate_log_dir := fun _ _ _ => none
  swupdated := fun _ _ => false
  read_startupreason := fun _ => ""
  loop_dev := ""
  directory_exists := fun _ _ => true
  mkdir_p := fun _ _ => 0
  errno := fun _ => 0
  init_properties := fun _ _ => 0
  open_creat := fun _ _ => 3
  prepare_history := fun _ => 0

/-- The sender named `crashlog` of the examples. -/
def crashlog_sender : sender_t :=
  { name := "crashlog", outdir := "/var/log/crashlog", spacequota := "1000", uptime := none,
    log_vmrecordid := none, send := some send_fn.crashlog_send }

/-- A world with the sender `crashlog` configured, in which every quota check
answers `space`, every directory lists as `files`, reclassification renames the
crash to `REFINED` with one auxiliary string, the key of an event is its
category followed by its name, and the directory of a key is
`/var/log/crashlog/<key>`. -/
def demo_world (space : Bool) (files : List String) : World :=
  { w0 with
    get_sender_by_name := fun n => if n = "crashlog" then some crashlog_sender else none
    space_available := fun _ _ _ => space
    lsdir := fun _ _ _ => .listed files
    reclassify := fun _ c _ => some ({ c with name := "REFINED" }, some "data0", none, none)
    generate_event_id := fun _ a b => some (a ++ b)
    generate_log_dir := fun _ _ k => some ("/var/log/crashlog/" ++ k)
    loop_dev := "/dev/loop0" }

/-- The world `demo_world true []` without any configured sender. -/
def no_sender_world : World :=
  { demo_world true [] with get_sender_by_name := fun _ => none }

/-- A crash event on the `inotify` channel with a `dir` trigger and one bound log. -/
def crash_event_dir : event_t :=
  { channel := "inotify", path := "core.123",
    priv := { name := "RAW", trigger := { type := "dir", path := "/data/crash" },
              log := [some { name := "kmsg", type := "node", path := "/dev/kmsg", lines := none }] },
    dir := none }

/-- A crash event on the `inotify` channel with a `file` trigger and no bound log. -/
def crash_event_file : event_t :=
  { channel := "inotify", path := "crash.log",
    priv := { name := "RAW", trigger := { type := "file", path := "/var/log/crash.log" },
              log := [] },
    dir := none }

/-- A world in which a software update is detected, the key of an `INFO` event
cannot be generated and the key of any other event can. -/
def reboot_world : World :=
  { w0 with
    swupdated := fun _ _ => true
    generate_event_id := fun _ a _ => if a = "INFO" then none else some "key"
    read_startupreason := fun _ => "WARM" }

/-- A configured sender whose name is a proper initial part of `crashlog`. -/
def crash_named_sender : sender_t :=
  { name := "crash", outdir := "/var/log/crashlog", spacequota := "1000", uptime := none,
    log_vmrecordid := none, send := none }

/-- The quota check answering `false` and the `SPACE_FULL` event raised after it. -/
def space_full_checks (crashlog : sender_t) : Trace :=
  [Effect.space_available crashlog.outdir (atoi crashlog.spacequota) false,
   Effect.hist_raise_infoerror "SPACE_FULL"]

/-- Whether a call appends a history record. -/
def is_record : Effect → Bool
  | Effect.hist_raise_event _ _ _ _ _ => true
  | _ => false

/-- The trace `tr2` continues `tr1` without a history record being appended. -/
def Continues (tr1 tr2 : Trace) : Prop :=
  ∃ s : Trace, tr2 = tr1 ++ s ∧ s.countP is_record = 0

/-- The file name of a listed entry: the text after its last `/`. -/
def entry_name (file : String) : Option (List Char) :=
  (strrchr file.data '/').map (fun i => file.data.drop (i + 1))

/-- Whether the file name of a listed entry contains `pfx`. -/
def entry_matches (pfx : List Char) (file : String) : Bool :=
  match entry_name file with
  | some name => (strstr name pfx).isSome
  | none => false

/-- The trailing integer of a listed entry: `atoi` of the text after the last
`.` of its file name. -/
def entry_number (file : String) : Option Int :=
  match entry_name file with
  | some name => (strrchr name '.').map (fun j => atoi (String.mk (name.drop (j + 1))))
  | none => none

/-- An entry on which the scan loop has defined behaviour: it has a `/`, and
its file name has a `.` when it contains `pfx`. -/
def entry_ok (pfx : List Char) (file : String) : Prop :=
  entry_name file ≠ none ∧ (entry_matches pfx file = true → entry_number file ≠ none)

/-- The collections that the selector `all` asks for, in the words of the
spec: one for every listed entry whose file name contains `pfx`, with the entry
as source and its own file name as name, the rest as in the log. -/
def rotation_all_targets (log : log_t) (pfx : List Char) (files : List String) : List log_t :=
  (files.filter (entry_matches pfx)).map
    (fun f => { log with path := f, name := String.mk ((entry_name f).getD []) })

/-- The function `get_log_file` run on each log of a list in turn. -/
def get_log_file_each (w : World) (desdir : String) : List log_t → Trace → Option Trace
  | [], tr => some tr
  | log :: logs, tr =>
    match get_log_file w log desdir tr with
    | none => none
    | some tr1 => get_log_file_each w desdir logs tr1

instance (pfx : List Char) (file : String) : Decidable (entry_ok pfx file) := by
  unfold entry_ok
  infer_instance

/-- A log of type `file_rotation` on the directory `/d` and the file name part
`f`, with the selector `sel`. -/
def rotation_log (sel : String) : log_t :=
  { name := "hvlog", type := "file_rotation", path := "/d/f.[" ++ sel ++ "]", lines := none }

/-- A listing of `/d` with the rotated files `f.1`, `f.2`, `f.9`, `f.10`. -/
def rotation_files : List String :=
  ["/d/f.9", "/d/.", "/d/f.10", "/d/f.1", "/d/..", "/d/f.2"]

/-- The number written by a non-empty string of decimal digits; `none` for any
other text. -/
def decimal_value (s : List Char) : Option Nat :=
  if s ≠ [] ∧ s.all isdigit = true then
    some (s.foldl (fun acc c => acc * 10 + (c.toNat - 48)) 0)
  else none

/-- The trailing integer of a listed entry in the words of the spec: the
number written in decimal digits after the last `.` of its file name. -/
def entry_trailing (file : String) : Option Nat :=
  match entry_name file with
  | some name =>
    match strrchr name '.' with
    | some j => decimal_value (name.drop (j + 1))
    | none => none
  | none => none

/-- A log of type `file` with the tail limit `lines`. -/
def tail_log (lines : String) : log_t :=
  { name := "n", type := "file", path := "/p", lines := some lines }

/-- A listing of `/d` with a rotated file whose trailing integer, 3000000000,
does not fit an `int`. -/
def rotation_files_beyond_int : List String :=
  ["/d/f.2", "/d/f.3000000000", "/d/."]

/-! ## Facts about lines -/

theorem linesOf_flatten (s : List Char) : (linesOf s).flatten = s := by
  induction s with
  | nil => rfl
  | cons c s ih =>
    unfold linesOf
    split
    · simp [ih]
    · split
      · rename_i h
        rw [h] at ih
        simp at ih
        simp [← ih]
      · rename_i l ls h
        rw [h] at ih
        simp at ih
        simp [← ih]

theorem linesOf_tail (s : List Char) : (linesOf s).tail = linesOf (dropLine s) := by
  induction s with
  | nil => rfl
  | cons c s ih =>
    rw [linesOf, dropLine]
    split
    · simp
    · split
      · rename_i h
        rw [h] at ih
        simpa using ih
      · rename_i l ls h
        rw [h] at ih
        simpa using ih

theorem linesOf_drop (k : Nat) (s : List Char) :
    (linesOf s).drop k = linesOf (dropLine^[k] s) := by
  induction k generalizing s with
  | zero => rfl
  | succ k ih =>
    rw [Function.iterate_succ_apply, ← ih, ← linesOf_tail]
    cases linesOf s <;> simp

theorem linesOf_flatten_drop (k : Nat) (s : List Char) :
    linesOf ((linesOf s).drop k).flatten = (linesOf s).drop k := by
  rw [linesOf_drop, linesOf_flatten]

theorem toInt32_of_range (x : Int) (h1 : -2147483648 ≤ x) (h2 : x ≤ 2147483647) :
    toInt32 x = x := by
  unfold toInt32
  omega

theorem toInt32_bounds (x : Int) : -2147483648 ≤ toInt32 x ∧ toInt32 x ≤ 2147483647 := by
  unfold toInt32
  omega

/-! ## Tail extraction -/

theorem digitsVal_digits (s : List Char) (acc : Nat) (h : ∀ c ∈ s, isdigit c = true) :
    digitsVal s (acc : Int) =
      ((s.foldl (fun a c => a * 10 + (c.toNat - 48)) acc : Nat) : Int) := by
  induction s generalizing acc with
  | nil => rfl
  | cons c s ih =>
    have hc : isdigit c = true := h c (List.mem_cons_self _ _)
    have h48 : 48 ≤ c.toNat := by
      simp only [isdigit, Bool.and_eq_true, decide_eq_true_eq] at hc
      exact hc.1
    have hstep : (acc : Int) * 10 + ((c.toNat : Int) - 48) =
        ((acc * 10 + (c.toNat - 48) : Nat) : Int) := by
      omega
    rw [digitsVal, if_pos hc, hstep, ih _ (fun d hd => h d (List.mem_cons_of_mem _ hd))]
    rfl

theorem isspace_of_isdigit (c : Char) (h : isdigit c = true) : isspace c = false := by
  simp only [isdigit, Bool.and_eq_true, decide_eq_true_eq] at h
  have hne : ∀ d : Char, d.toNat < 48 → c ≠ d := by
    intro d hd hcd
    rw [hcd] at h
    omega
  simp [isspace, hne ' ' (by decide), hne '\t' (by decide), hne '\n' (by decide),
    hne '\x0b' (by decide), hne '\x0c' (by decide), hne '\r' (by decide)]

theorem atoiSigned_digits (s : List Char) (n : Nat) (h : decimal_value s = some n) :
    atoiSigned (s.dropWhile isspace) = (n : Int) := by
  unfold decimal_value at h
  split at h
  · rename_i hs
    obtain ⟨hne, hall⟩ := hs
    simp only [Option.some.injEq] at h
    have hd : ∀ c ∈ s, isdigit c = true := by
      simpa [List.all_eq_true] using hall
    cases s with
    | nil => exact absurd rfl hne
    | cons c r =>
      have hc : isdigit c = true := hd c (List.mem_cons_self _ _)
      have hc2 := hc
      simp only [isdigit, Bool.and_eq_true, decide_eq_true_eq] at hc2
      have hminus : c ≠ '-' := by
        intro hcd
        rw [hcd] at hc2
        exact absurd hc2.1 (by decide)
      have hplus : c ≠ '+' := by
        intro hcd
        rw [hcd] at hc2
        exact absurd hc2.1 (by decide)
      rw [List.dropWhile_cons_of_neg (by simp [isspace_of_isdigit c hc])]
      have hval := digitsVal_digits (c :: r) 0 hd
      rw [← h]
      unfold atoiSigned
      split
      · rename_i heq
        exact absurd (List.cons.inj heq).1 hminus
      · rename_i heq
        exact absurd (List.cons.inj heq).1 hplus
      · simpa using hval
  · simp at h

theorem atoi_decimal (s : String) (n : Nat) (h : decimal_value s.data = some n)
    (hn : n ≤ 2147483647) : atoi s = (n : Int) := by
  unfold atoi
  rw [atoiSigned_digits s.data n h]
  unfold strtol_clamp toInt32
  split
  · omega
  · split
    · omega
    · omega

theorem atoi_bounds (s : String) : -2147483648 ≤ atoi s ∧ atoi s ≤ 2147483647 :=
  toInt32_bounds _

theorem get_log_file_tail_of_atoi (w : World) (log : log_t) (desdir : String) (tr : Trace)
    (ls content : String) (L : Nat) (N : Int)
    (hlines : log.lines = some ls) (hN : atoi ls = N) (hpos : 0 < N)
    (halloc : w.alloc tr (desdir ++ "/" ++ log.name ++ "_" ++ w.get_uptime_string tr) = true)
    (hmap : w.mmap_file tr log.path = some content)
    (hL : (linesOf content.data).length = L) (hint : L ≤ 2147483647) :
    get_log_file w log desdir tr = get_log_file_tail w log desdir tr ∧
    (L = 0 → get_log_file_tail w log desdir tr = some tr) ∧
    (0 < L → ∃ text : String,
      get_log_file_tail w log desdir tr = some (tr ++ [Effect.overwrite_file
        (desdir ++ "/" ++ log.name ++ "_" ++ w.get_uptime_string tr) (some text)]) ∧
      linesOf text.data = (linesOf content.data).drop (max ((L : Int) - N) 0 + 1 - 1).toNat ∧
      ((linesOf text.data).length : Int) = (L : Int) - max ((L : Int) - N) 0 ∧
      ((L : Int) ≤ N → text = content)) := by
  have hNb2 : -2147483648 ≤ N ∧ N ≤ 2147483647 := by rw [← hN]; exact atoi_bounds ls
  refine ⟨?_, ?_, ?_⟩
  · simp [get_log_file, hlines, hN, hpos]
  · intro h0
    simp [get_log_file_tail, hlines, asprintf, halloc, hmap, mm_count_lines, hL, h0]
  · intro h0
    have hstart : toInt32 (max (toInt32 ((L : Int) - N)) 0 + 1) = max ((L : Int) - N) 0 + 1 := by
      rw [toInt32_of_range ((L : Int) - N) (by omega) (by omega)]
      exact toInt32_of_range _ (by omega) (by omega)
    have hin : 1 ≤ max ((L : Int) - N) 0 + 1 ∧ max ((L : Int) - N) 0 + 1 ≤ (L : Int) := by
      omega
    refine ⟨String.mk ((linesOf content.data).drop (max ((L : Int) - N) 0 + 1 - 1).toNat).flatten,
      ?_, ?_, ?_, ?_⟩
    · have hL0 : ¬ ((L : Int) ≤ 0) := by omega
      simp only [get_log_file_tail, hlines, asprintf, halloc, hmap, mm_count_lines, hL, hN,
        hstart, mm_get_line, hin, hL0]
      simp
    · exact linesOf_flatten_drop _ _
    · simp only [linesOf_flatten_drop, List.length_drop, hL]
      omega
    · intro hle
      have : (max ((L : Int) - N) 0 + 1 - 1).toNat = 0 := by omega
      rw [this, List.drop_zero, linesOf_flatten]

/-- Counterexample to C4: the source has `L = 3` lines and `tail_lines` is the
decimal integer `4294967298`, so `N ≥ L`; `atoi` gives the `int` 2 and
`get_log_file_tail` writes the last two lines, not the whole file.  With
`tail_lines = 99999999999999999999`, `atoi` gives `-1` and `get_log_file` makes
the plain copy to `<desdir>/<name>`. -/
theorem get_log_file_tail_limit_beyond_int :
    decimal_value "4294967298".data = some 4294967298 ∧
    (linesOf "a\nb\nc\n".data).length = 3 ∧
    get_log_file_tail w0 (tail_log "4294967298") "/d" [] =
      some [Effect.overwrite_file "/d/n_up" (some "b\nc\n")] ∧
    decimal_value "99999999999999999999".data = some 99999999999999999999 ∧
    get_log_file w0 (tail_log "99999999999999999999") "/d" [] =
      some [Effect.do_copy_tail "/p" "/d/n" 0] := by
  decide

/-- C4 (amended): for a mapped source file of `L` lines, `L` fitting an `int`,
and a tail limit `N` written in `log->lines` as a string of decimal digits,
with `0 < N ≤ 2147483647`, `get_log_file` runs `get_log_file_tail`; when
`L > 0` it writes to `<desdir>/<name>_<uptime string>` the text that starts at
the 1-based line `max (L - N) 0 + 1`, that is the lines `start..L` of the
source, `L - max (L - N) 0` lines, the whole file when `N ≥ L`; when `L = 0`
nothing is written. -/
theorem get_log_file_tail_lines (w : World) (log : log_t) (desdir : String) (tr : Trace)
    (ls content : String) (L N : Nat)
    (hlines : log.lines = some ls) (hN : decimal_value ls.data = some N) (hpos : 0 < N)
    (hNint : N ≤ 2147483647)
    (halloc : w.alloc tr (desdir ++ "/" ++ log.name ++ "_" ++ w.get_uptime_string tr) = true)
    (hmap : w.mmap_file tr log.path = some content)
    (hL : (linesOf content.data).length = L) (hint : L ≤ 2147483647) :
    get_log_file w log desdir tr = get_log_file_tail w log desdir tr ∧
    (L = 0 → get_log_file_tail w log desdir tr = some tr) ∧
    (0 < L → ∃ text : String,
      get_log_file_tail w log desdir tr = some (tr ++ [Effect.overwrite_file
        (desdir ++ "/" ++ log.name ++ "_" ++ w.get_uptime_string tr) (some text)]) ∧
      linesOf text.data =
        (linesOf content.data).drop (max ((L : Int) - (N : Int)) 0 + 1 - 1).toNat ∧
      ((linesOf text.data).length : Int) = (L : Int) - max ((L : Int) - (N : Int)) 0 ∧
      (L ≤ N → text = content)) := by
  have h := get_log_file_tail_of_atoi w log desdir tr ls content L (N : Int) hlines
    (atoi_decimal ls N hN hNint) (by omega) halloc hmap hL hint
  refine ⟨h.1, h.2.1, ?_⟩
  intro h0
  obtain ⟨text, h1, h2, h3, h4⟩ := h.2.2 h0
  exact ⟨text, h1, h2, h3, fun hle => h4 (by omega)⟩

/-- Witness of C4 (amended): a three-line file and `lines = "2"`: the last two
lines are written to `/d/n_up`. -/
theorem get_log_file_tail_lines_witness :
    get_log_file w0 (tail_log "2") "/d" [] = get_log_file_tail w0 (tail_log "2") "/d" [] ∧
    get_log_file_tail w0 (tail_log "2") "/d" [] =
      some [Effect.overwrite_file "/d/n_up" (some "b\nc\n")] :=
  ⟨(get_log_file_tail_lines w0 (tail_log "2") "/d" [] "2" "a\nb\nc\n" 3 2
      rfl (by decide) (by decide) (by decide) rfl rfl (by decide) (by decide)).1,
   by decide⟩

/-! ## The crash handler -/

/-- C1: when `reclassify` is called for a crash event and returns `NULL`,
`crashlog_send_crash` makes no recorded call at all (no evidence directory is
allocated, no crash file is written, no log is collected, no history record is
appended) and leaves the event, with its `private` and `dir` members, as it
was. -/
theorem crashlog_send_crash_reclassify_fails (w : World) (e : event_t) (tr : Trace)
    (trfile : String)
    (htr : crashlog_send_crash_trfile w e tr = some (some trfile))
    (hre : w.reclassify tr e.priv trfile = none) :
    crashlog_send_crash w e tr = some (e, tr) := by
  simp [crashlog_send_crash, htr, crashlog_send_crash_reclassified, hre]

/-- Witness of C1: the event `crash_event_dir` in the world `w0`, whose
reclassification always fails. -/
theorem crashlog_send_crash_reclassify_fails_witness :
    crashlog_send_crash w0 crash_event_dir [] = some (crash_event_dir, []) :=
  crashlog_send_crash_reclassify_fails w0 crash_event_dir [] "/data/crash/core.123" rfl rfl

theorem crashlog_get_log_space_full (w : World) (log : log_t) (desdir : String) (tr : Trace)
    (crashlog : sender_t) (hsender : w.get_sender_by_name "crashlog" = some crashlog)
    (hfull : ∀ t d q, w.space_available t d q = false) :
    crashlog_get_log w log desdir tr = some (tr ++ space_full_checks crashlog) := by
  simp [crashlog_get_log, hsender, hfull, space_full_checks]

theorem for_each_log_collect_space_full (w : World) (desdir : String) (crashlog : sender_t)
    (hsender : w.get_sender_by_name "crashlog" = some crashlog)
    (hfull : ∀ t d q, w.space_available t d q = false)
    (logs : List (Option log_t)) (tr : Trace) :
    for_each_log_collect w desdir logs tr =
      some (tr ++ (logs.filterMap id).flatMap (fun _ => space_full_checks crashlog)) := by
  induction logs generalizing tr with
  | nil => simp [for_each_log_collect]
  | cons l logs ih =>
    cases l with
    | none => simpa [for_each_log_collect] using ih tr
    | some log =>
      simp [for_each_log_collect, crashlog_get_log_space_full w log desdir tr crashlog hsender hfull,
        ih]

/-- Counterexample to C3: with `space_available` false at every check, the
handler still allocates the evidence directory and writes the crash file; only
the collection of the bound log and the copy of the trigger are skipped. -/
theorem crashlog_send_crash_writes_when_full :
    (∀ t d q, (demo_world false []).space_available t d q = false) ∧
    crashlog_send_crash (demo_world false []) crash_event_dir [] =
      some ({ crash_event_dir with
                priv := { crash_event_dir.priv with name := "REFINED" }
                dir := some "/var/log/crashlog/CRASHREFINED" },
        [Effect.generate_log_dir e_dir_mode.MODE_CRASH "CRASHREFINED"
           (some "/var/log/crashlog/CRASHREFINED"),
         Effect.generate_crashfile "/var/log/crashlog/CRASHREFINED" "CRASH" "CRASHREFINED"
           "REFINED" (some "data0") none none,
         Effect.space_available "/var/log/crashlog" 1000 false,
         Effect.hist_raise_infoerror "SPACE_FULL",
         Effect.space_available "/var/log/crashlog" 1000 false,
         Effect.hist_raise_infoerror "SPACE_FULL",
         Effect.hist_raise_event "CRASH" "REFINED" (some "/var/log/crashlog/CRASHREFINED") ""
           "CRASHREFINED"]) := by
  constructor
  · intro t d q
    rfl
  · decide

/-- C3 (amended): in the crash handler the collection of each bound log and the
copy of the trigger are each preceded by a quota check, the allocation of the
evidence directory and the crash file are not.  For a crash event whose
reclassification, key generation and (when one is required) directory
allocation succeed, with the sender `crashlog` configured and
`space_available` false at every check: the directory and the crash file are
produced when required, then each bound log gives one check followed by
`SPACE_FULL` and no collection, then the re-check gives `SPACE_FULL` and no
copy of the trigger, then the history record is appended. -/
theorem crashlog_send_crash_space_full (w : World) (e : event_t) (tr : Trace)
    (trfile : String) (crash : crash_t) (data0 data1 data2 : Option String)
    (key dir : String) (crashlog : sender_t)
    (htr : crashlog_send_crash_trfile w e tr = some (some trfile))
    (hre : w.reclassify tr e.priv trfile = some (crash, data0, data1, data2))
    (hkey : w.generate_event_id tr "CRASH" crash.name = some key)
    (hdir : (to_collect_logs crash || decide (e.channel = "inotify")) = true →
      w.generate_log_dir tr e_dir_mode.MODE_CRASH key = some dir)
    (hsender : w.get_sender_by_name "crashlog" = some crashlog)
    (hfull : ∀ t d q, w.space_available t d q = false) :
    crashlog_send_crash w e tr =
      if (to_collect_logs crash || decide (e.channel = "inotify")) = true then
        some ({ e with priv := crash, dir := some dir },
          tr ++ [Effect.generate_log_dir e_dir_mode.MODE_CRASH key (some dir),
                 Effect.generate_crashfile dir "CRASH" key crash.name data0 data1 data2] ++
            (crash.log.filterMap id).flatMap (fun _ => space_full_checks crashlog) ++
            space_full_checks crashlog ++
            [Effect.hist_raise_event "CRASH" crash.name (some dir) "" key])
      else
        some ({ e with priv := crash },
          tr ++ space_full_checks crashlog ++
            [Effect.hist_raise_event "CRASH" crash.name e.dir "" key]) := by
  simp only [crashlog_send_crash, htr, crashlog_send_crash_reclassified, hre, hkey]
  split
  · rename_i hneed
    rw [hdir hneed]
    simp [for_each_log_collect_space_full w dir crashlog hsender hfull,
      crashlog_send_crash_archive, hsender, hfull, space_full_checks, crash_record]
  · simp [crashlog_send_crash_archive, hsender, hfull, space_full_checks, crash_record]

/-- Witness of C3 (amended): the event `crash_event_dir` in `demo_world false []`. -/
theorem crashlog_send_crash_space_full_witness :
    crashlog_send_crash (demo_world false []) crash_event_dir [] =
      if (to_collect_logs { crash_event_dir.priv with name := "REFINED" } ||
            decide (crash_event_dir.channel = "inotify")) = true then
        some ({ crash_event_dir with
                  priv := { crash_event_dir.priv with name := "REFINED" }
                  dir := some "/var/log/crashlog/CRASHREFINED" },
          [] ++ [Effect.generate_log_dir e_dir_mode.MODE_CRASH "CRASHREFINED"
                   (some "/var/log/crashlog/CRASHREFINED"),
                 Effect.generate_crashfile "/var/log/crashlog/CRASHREFINED" "CRASH"
                   "CRASHREFINED" "REFINED" (some "data0") none none] ++
            (crash_event_dir.priv.log.filterMap id).flatMap
              (fun _ => space_full_checks crashlog_sender) ++
            space_full_checks crashlog_sender ++
            [Effect.hist_raise_event "CRASH" "REFINED" (some "/var/log/crashlog/CRASHREFINED") ""
               "CRASHREFINED"])
      else
        some ({ crash_event_dir with priv := { crash_event_dir.priv with name := "REFINED" } },
          [] ++ space_full_checks crashlog_sender ++
            [Effect.hist_raise_event "CRASH" "REFINED" crash_event_dir.dir "" "CRASHREFINED"]) :=
  crashlog_send_crash_space_full (demo_world false []) crash_event_dir [] "/data/crash/core.123"
    { crash_event_dir.priv with name := "REFINED" } (some "data0") none none "CRASHREFINED"
    "/var/log/crashlog/CRASHREFINED" crashlog_sender rfl rfl rfl (fun _ => rfl) rfl
    (fun _ _ _ => rfl)

/-- C6 at a `file` trigger: the trigger file computed first is the path of the
trigger, `/var/log/crash.log`, but the file copied by the archive step is
`/var/log/crash.log/crash.log`, the path of the trigger followed by `/` and the
path of the event. -/
theorem crashlog_send_crash_archive_file_trigger :
    crashlog_send_crash_trfile (demo_world true []) crash_event_file [] =
      some (some "/var/log/crash.log") ∧
    crashlog_send_crash (demo_world true []) crash_event_file [] =
      some ({ crash_event_file with
                priv := { crash_event_file.priv with name := "REFINED" }
                dir := some "/var/log/crashlog/CRASHREFINED" },
        [Effect.generate_log_dir e_dir_mode.MODE_CRASH "CRASHREFINED"
           (some "/var/log/crashlog/CRASHREFINED"),
         Effect.generate_crashfile "/var/log/crashlog/CRASHREFINED" "CRASH" "CRASHREFINED"
           "REFINED" (some "data0") none none,
         Effect.space_available "/var/log/crashlog" 1000 true,
         Effect.do_copy_tail "/var/log/crash.log/crash.log"
           "/var/log/crashlog/CRASHREFINED/crash.log" 0,
         Effect.hist_raise_event "CRASH" "REFINED" (some "/var/log/crashlog/CRASHREFINED") ""
           "CRASHREFINED"]) := by
  decide

/-! ## The reboot handler -/

/-- Counterexample to C8: a software update is detected, the key of the
`INFO`/`SWUPDATE` record cannot be generated, the key of the `REBOOT` record
could be, and the handler appends no record at all. -/
theorem crashlog_send_reboot_key_failure_returns :
    reboot_world.swupdated [] (reboot_world.get_sender_by_name "crashlog") = true ∧
    reboot_world.generate_event_id [] "INFO" "SWUPDATE" = none ∧
    reboot_world.generate_event_id [] "REBOOT" (reboot_world.read_startupreason []) = some "key" ∧
    crashlog_send_reboot reboot_world [] = [] := by
  decide

/-- C8 (amended): when a software update is detected, the second step runs only
after the first has succeeded.  If the key of the `INFO`/`SWUPDATE` record
cannot be generated the handler returns at once and appends no record; if it
can, that record is appended, the startup reason is then read and, its key
being generated from the reason text, exactly one `REBOOT`/reason record is
appended after it (none if that key cannot be generated). -/
theorem crashlog_send_reboot_swupdated (w : World) (tr : Trace)
    (hsw : w.swupdated tr (w.get_sender_by_name "crashlog") = true) :
    (w.generate_event_id tr "INFO" "SWUPDATE" = none → crashlog_send_reboot w tr = tr) ∧
    (∀ key, w.generate_event_id tr "INFO" "SWUPDATE" = some key →
      (∀ rkey,
        w.generate_event_id (tr ++ [Effect.hist_raise_event "INFO" "SWUPDATE" none "" key])
            "REBOOT"
            (w.read_startupreason (tr ++ [Effect.hist_raise_event "INFO" "SWUPDATE" none "" key]))
          = some rkey →
        crashlog_send_reboot w tr =
          tr ++ [Effect.hist_raise_event "INFO" "SWUPDATE" none "" key] ++
            [Effect.hist_raise_event "REBOOT"
              (w.read_startupreason (tr ++ [Effect.hist_raise_event "INFO" "SWUPDATE" none "" key]))
              none "" rkey]) ∧
      (w.generate_event_id (tr ++ [Effect.hist_raise_event "INFO" "SWUPDATE" none "" key])
            "REBOOT"
            (w.read_startupreason (tr ++ [Effect.hist_raise_event "INFO" "SWUPDATE" none "" key]))
          = none →
        crashlog_send_reboot w tr =
          tr ++ [Effect.hist_raise_event "INFO" "SWUPDATE" none "" key])) := by
  refine ⟨?_, ?_⟩
  · intro h
    simp [crashlog_send_reboot, hsw, h]
  · intro key h
    refine ⟨?_, ?_⟩
    · intro rkey hr
      simp [crashlog_send_reboot, hsw, h, hr]
    · intro hr
      simp [crashlog_send_reboot, hsw, h, hr]

/-- Witness of C8 (amended): the world `reboot_world`, where the first key
cannot be generated. -/
theorem crashlog_send_reboot_swupdated_witness :
    reboot_world.swupdated [] (reboot_world.get_sender_by_name "crashlog") = true ∧
    crashlog_send_reboot reboot_world [] = [] :=
  ⟨rfl, (crashlog_send_reboot_swupdated reboot_world [] rfl).1 rfl⟩

/-! ## Sender bootstrap -/

/-- C10 at the sender name `crash`: all earlier steps succeed, and the sender
is bound to `crashlog_send` and the history is opened for it although its name
is not `crashlog`. -/
theorem init_sender_binds_crash_named_sender :
    crash_named_sender.name ≠ "crashlog" ∧
    init_sender w0 [some crash_named_sender] [] =
      (init_result.returned 0,
       [some { crash_named_sender with
                 log_vmrecordid := some "/var/log/crashlog/vmrecordid"
                 send := some send_fn.crashlog_send }],
       [Effect.init_properties "crash", Effect.prepare_history]) := by
  decide

/-! ## Log collection appends no history record -/

theorem Continues.refl (tr : Trace) : Continues tr tr := ⟨[], by simp, by simp⟩

theorem Continues.trans {a b c : Trace} (h1 : Continues a b) (h2 : Continues b c) :
    Continues a c := by
  obtain ⟨s1, rfl, hs1⟩ := h1
  obtain ⟨s2, rfl, hs2⟩ := h2
  exact ⟨s1 ++ s2, by simp, by simp [List.countP_append, hs1, hs2]⟩

theorem Continues.step (tr : Trace) (x : Effect) (hx : is_record x = false) :
    Continues tr (tr ++ [x]) := ⟨[x], rfl, by simp [List.countP_cons, hx]⟩

theorem get_log_file_complete_continues (w : World) (log : log_t) (desdir : String)
    (tr : Trace) : Continues tr (get_log_file_complete w log desdir tr) := by
  unfold get_log_file_complete
  split
  · exact Continues.refl tr
  · exact Continues.step tr _ rfl

theorem get_log_file_tail_continues (w : World) (log : log_t) (desdir : String)
    (tr tr1 : Trace) (h : get_log_file_tail w log desdir tr = some tr1) : Continues tr tr1 := by
  unfold get_log_file_tail at h
  split at h
  · simp at h
  · simp only at h
    split at h
    · cases h; exact Continues.refl tr
    · split at h
      · cases h; exact Continues.refl tr
      · split at h
        · cases h; exact Continues.refl tr
        · cases h; exact Continues.step tr _ rfl

theorem get_log_file_continues (w : World) (log : log_t) (desdir : String)
    (tr tr1 : Trace) (h : get_log_file w log desdir tr = some tr1) : Continues tr tr1 := by
  unfold get_log_file at h
  split at h
  · cases h; exact get_log_file_complete_continues w log desdir tr
  · split at h
    · exact get_log_file_tail_continues w log desdir tr tr1 h
    · cases h; exact get_log_file_complete_continues w log desdir tr

theorem get_log_node_continues (w : World) (log : log_t) (desdir : String)
    (tr : Trace) : Continues tr (get_log_node w log desdir tr) := by
  unfold get_log_node
  split
  · exact Continues.refl tr
  · exact Continues.step tr _ rfl

theorem get_log_cmd_continues (w : World) (log : log_t) (desdir : String)
    (tr : Trace) : Continues tr (get_log_cmd w log desdir tr) := by
  unfold get_log_cmd out_via_fork
  split
  · exact Continues.refl tr
  · exact Continues.step tr _ rfl

theorem get_log_rotation_scan_continues (w : World) (pfx sfx : List Char) (desdir : String)
    (files : List String) (st st1 : rotation_state)
    (h : get_log_rotation_scan w pfx sfx desdir files st = some st1) :
    Continues st.tr st1.tr := by
  induction files generalizing st with
  | nil =>
    simp only [get_log_rotation_scan] at h
    cases h
    exact Continues.refl _
  | cons file files ih =>
    simp only [get_log_rotation_scan] at h
    split at h
    · simp at h
    · split at h
      · exact ih st h
      · split at h
        · simp at h
        · split at h
          · split at h
            · exact (by simpa using ih _ h)
            · exact (by simpa using ih _ h)
          · split at h
            · split at h
              · exact (by simpa using ih _ h)
              · exact (by simpa using ih _ h)
            · split at h
              · split at h
                · simp at h
                · rename_i tr1 hget
                  exact (get_log_file_continues w _ desdir st.tr tr1 hget).trans (by simpa using ih _ h)
              · exact (by simpa using ih _ h)

theorem get_log_rotation_continues (w : World) (log : log_t) (desdir : String)
    (tr tr1 : Trace) (h : get_log_rotation w log desdir tr = some tr1) : Continues tr tr1 := by
  unfold get_log_rotation at h
  split at h
  · cases h; exact Continues.refl _
  · split at h
    · cases h; exact Continues.refl _
    · simp only at h
      split at h
      · cases h; exact Continues.refl _
      · rename_i files _
        split at h
        · simp at h
        · rename_i st hst
          have hc : Continues tr st.tr := by
            split at hst
            · exact get_log_rotation_scan_continues w _ _ desdir files _ st hst
            · cases hst; exact Continues.refl _
          split at h
          · cases h; exact hc
          · split at h
            · exact hc.trans (get_log_file_continues w _ desdir st.tr tr1 h)
            · cases h; exact hc

theorem crashlog_get_log_continues (w : World) (log : log_t) (desdir : String)
    (tr tr1 : Trace) (h : crashlog_get_log w log desdir tr = some tr1) : Continues tr tr1 := by
  unfold crashlog_get_log at h
  split at h
  · cases h; exact Continues.refl tr
  · rename_i crashlog _
    simp only at h
    have h0 := Continues.step tr (Effect.space_available crashlog.outdir (atoi crashlog.spacequota)
      (w.space_available tr crashlog.outdir (atoi crashlog.spacequota))) rfl
    split at h
    · cases h
      exact h0.trans (Continues.step _ _ rfl)
    · split at h
      · exact h0.trans (get_log_file_continues w log desdir _ tr1 h)
      · split at h
        · cases h; exact h0.trans (get_log_node_continues w log desdir _)
        · split at h
          · cases h; exact h0.trans (get_log_cmd_continues w log desdir _)
          · split at h
            · exact h0.trans (get_log_rotation_continues w log desdir _ tr1 h)
            · cases h; exact h0

theorem for_each_log_collect_continues (w : World) (desdir : String)
    (logs : List (Option log_t)) (tr tr1 : Trace)
    (h : for_each_log_collect w desdir logs tr = some tr1) : Continues tr tr1 := by
  induction logs generalizing tr with
  | nil =>
    simp only [for_each_log_collect] at h
    cases h
    exact Continues.refl _
  | cons l logs ih =>
    cases l with
    | none => exact ih tr (by simpa [for_each_log_collect] using h)
    | some log =>
      simp only [for_each_log_collect] at h
      split at h
      · simp at h
      · rename_i tr2 hget
        exact (crashlog_get_log_continues w log desdir tr tr2 hget).trans (ih tr2 h)

/-! ## The history record of a crash -/

/-- Counterexample to C2: reclassification, key generation and the allocation
of the evidence directory succeed, but no sender named `crashlog` is
configured, and the handler returns without appending a history record. -/
theorem crashlog_send_crash_no_sender_no_record :
    no_sender_world.reclassify [] crash_event_dir.priv "/data/crash/core.123" =
      some ({ crash_event_dir.priv with name := "REFINED" }, some "data0", none, none) ∧
    no_sender_world.generate_event_id [] "CRASH" "REFINED" = some "CRASHREFINED" ∧
    no_sender_world.generate_log_dir [] e_dir_mode.MODE_CRASH "CRASHREFINED" =
      some "/var/log/crashlog/CRASHREFINED" ∧
    crashlog_send_crash no_sender_world crash_event_dir [] =
      some ({ crash_event_dir with
                priv := { crash_event_dir.priv with name := "REFINED" }
                dir := some "/var/log/crashlog/CRASHREFINED" },
        [Effect.generate_log_dir e_dir_mode.MODE_CRASH "CRASHREFINED"
           (some "/var/log/crashlog/CRASHREFINED"),
         Effect.generate_crashfile "/var/log/crashlog/CRASHREFINED" "CRASH" "CRASHREFINED"
           "REFINED" (some "data0") none none]) := by
  decide

/-- C2 (amended): for a crash event whose trigger file name, reclassification,
key generation and (when one is required) directory allocation succeed, whose
log collection ends with the trace `trL`, with the sender `crashlog` configured
and, when the trigger is to be copied, both path compositions succeeding, the
handler appends exactly one history record `("CRASH", refined name, dir, "",
key)`, where `dir` is the evidence directory, or the `dir` the event came with
when none was allocated.  The record is the last call, made after the
collection of every bound log has been attempted (`trL`) and after the quota
re-check, whether the re-check passes (the trigger is then copied on the
`inotify` channel) or fails (`SPACE_FULL` is raised and only the copy is
skipped). -/
theorem crashlog_send_crash_records (w : World) (e : event_t) (tr : Trace)
    (trfile : String) (crash : crash_t) (data0 data1 data2 : Option String)
    (key dir : String) (crashlog : sender_t) (edir : Option String) (trL : Trace)
    (htr : crashlog_send_crash_trfile w e tr = some (some trfile))
    (hre : w.reclassify tr e.priv trfile = some (crash, data0, data1, data2))
    (hkey : w.generate_event_id tr "CRASH" crash.name = some key)
    (hdir : (to_collect_logs crash || decide (e.channel = "inotify")) = true →
      w.generate_log_dir tr e_dir_mode.MODE_CRASH key = some dir ∧ edir = some dir ∧
      for_each_log_collect w dir crash.log
        (tr ++ [Effect.generate_log_dir e_dir_mode.MODE_CRASH key (some dir),
                Effect.generate_crashfile dir "CRASH" key crash.name data0 data1 data2]) =
        some trL)
    (hnodir : (to_collect_logs crash || decide (e.channel = "inotify")) = false →
      edir = e.dir ∧ trL = tr)
    (hsender : w.get_sender_by_name "crashlog" = some crashlog)
    (halloc : w.space_available trL crashlog.outdir (atoi crashlog.spacequota) = true →
      e.channel = "inotify" →
      w.alloc (trL ++ [Effect.space_available crashlog.outdir (atoi crashlog.spacequota) true])
        (fmt_s edir ++ "/" ++ e.path) = true ∧
      w.alloc (trL ++ [Effect.space_available crashlog.outdir (atoi crashlog.spacequota) true])
        (crash.trigger.path ++ "/" ++ e.path) = true) :
    crashlog_send_crash w e tr =
      some ({ e with priv := crash, dir := edir },
        trL ++
          [Effect.space_available crashlog.outdir (atoi crashlog.spacequota)
            (w.space_available trL crashlog.outdir (atoi crashlog.spacequota))] ++
          (if w.space_available trL crashlog.outdir (atoi crashlog.spacequota) = true then
            if e.channel = "inotify" then
              [Effect.do_copy_tail (crash.trigger.path ++ "/" ++ e.path)
                (fmt_s edir ++ "/" ++ e.path) 0]
            else []
          else [Effect.hist_raise_infoerror "SPACE_FULL"]) ++
          [Effect.hist_raise_event "CRASH" crash.name edir "" key]) ∧
    ∃ s : Trace,
      trL ++
          [Effect.space_available crashlog.outdir (atoi crashlog.spacequota)
            (w.space_available trL crashlog.outdir (atoi crashlog.spacequota))] ++
          (if w.space_available trL crashlog.outdir (atoi crashlog.spacequota) = true then
            if e.channel = "inotify" then
              [Effect.do_copy_tail (crash.trigger.path ++ "/" ++ e.path)
                (fmt_s edir ++ "/" ++ e.path) 0]
            else []
          else [Effect.hist_raise_infoerror "SPACE_FULL"]) ++
          [Effect.hist_raise_event "CRASH" crash.name edir "" key] = tr ++ s ∧
      s.countP is_record = 1 := by
  have harch : crashlog_send_crash_archive w { e with priv := crash, dir := edir } crash key trL =
      some ({ e with priv := crash, dir := edir },
        trL ++
          [Effect.space_available crashlog.outdir (atoi crashlog.spacequota)
            (w.space_available trL crashlog.outdir (atoi crashlog.spacequota))] ++
          (if w.space_available trL crashlog.outdir (atoi crashlog.spacequota) = true then
            if e.channel = "inotify" then
              [Effect.do_copy_tail (crash.trigger.path ++ "/" ++ e.path)
                (fmt_s edir ++ "/" ++ e.path) 0]
            else []
          else [Effect.hist_raise_infoerror "SPACE_FULL"]) ++
          [Effect.hist_raise_event "CRASH" crash.name edir "" key]) := by
    simp only [crashlog_send_crash_archive, hsender, crash_record]
    by_cases hok : w.space_available trL crashlog.outdir (atoi crashlog.spacequota) = true
    · by_cases hch : e.channel = "inotify"
      · obtain ⟨h1, h2⟩ := halloc hok hch
        simp [hok, hch, asprintf, h1, h2]
      · simp [hok, hch]
    · simp [hok]
  have hcont : Continues tr trL := by
    by_cases hneed : (to_collect_logs crash || decide (e.channel = "inotify")) = true
    · obtain ⟨_, _, hcol⟩ := hdir hneed
      exact (Continues.step tr (Effect.generate_log_dir e_dir_mode.MODE_CRASH key (some dir))
          rfl).trans
        ((Continues.step _ (Effect.generate_crashfile dir "CRASH" key crash.name data0 data1
            data2) rfl).trans
          (for_each_log_collect_continues w dir crash.log _ trL (by simpa using hcol)))
    · obtain ⟨_, h2⟩ := hnodir (by simpa using hneed)
      rw [h2]
      exact Continues.refl tr
  refine ⟨?_, ?_⟩
  · simp only [crashlog_send_crash, htr, crashlog_send_crash_reclassified, hre, hkey]
    by_cases hneed : (to_collect_logs crash || decide (e.channel = "inotify")) = true
    · obtain ⟨h1, h2, hcol⟩ := hdir hneed
      subst h2
      have hcol2 : for_each_log_collect w dir crash.log
          (tr ++ [Effect.generate_log_dir e_dir_mode.MODE_CRASH key (some dir)] ++
            [Effect.generate_crashfile dir "CRASH" key crash.name data0 data1 data2]) =
          some trL := by
        rw [List.append_assoc]
        exact hcol
      rw [if_pos hneed, h1]
      simp only [hcol2]
      exact harch
    · obtain ⟨h1, h2⟩ := hnodir (by simpa using hneed)
      rw [if_neg hneed]
      have he : ({ e with priv := crash } : event_t) = { e with priv := crash, dir := edir } := by
        rw [h1]
      rw [he, ← h2]
      exact harch
  · obtain ⟨s, hs, hcount⟩ := hcont
    refine ⟨s ++ [Effect.space_available crashlog.outdir (atoi crashlog.spacequota)
            (w.space_available trL crashlog.outdir (atoi crashlog.spacequota))] ++
          (if w.space_available trL crashlog.outdir (atoi crashlog.spacequota) = true then
            if e.channel = "inotify" then
              [Effect.do_copy_tail (crash.trigger.path ++ "/" ++ e.path)
                (fmt_s edir ++ "/" ++ e.path) 0]
            else []
          else [Effect.hist_raise_infoerror "SPACE_FULL"]) ++
          [Effect.hist_raise_event "CRASH" crash.name edir "" key], ?_, ?_⟩
    · rw [hs]
      simp
    · simp only [List.countP_append, hcount]
      split
      · split <;> simp [List.countP_cons, is_record]
      · simp [List.countP_cons, is_record]

/-- Witness of C2 (amended): the event `crash_event_dir` in `demo_world true []`:
one bound log is collected, the trigger is copied, then the record is appended. -/
theorem crashlog_send_crash_records_witness :
    crashlog_send_crash (demo_world true []) crash_event_dir [] =
      some ({ crash_event_dir with
                priv := { crash_event_dir.priv with name := "REFINED" }
                dir := some "/var/log/crashlog/CRASHREFINED" },
        [Effect.generate_log_dir e_dir_mode.MODE_CRASH "CRASHREFINED"
           (some "/var/log/crashlog/CRASHREFINED"),
         Effect.generate_crashfile "/var/log/crashlog/CRASHREFINED" "CRASH" "CRASHREFINED"
           "REFINED" (some "data0") none none,
         Effect.space_available "/var/log/crashlog" 1000 true,
         Effect.do_copy_eof "/dev/kmsg" "/var/log/crashlog/CRASHREFINED/kmsg",
         Effect.space_available "/var/log/crashlog" 1000 true,
         Effect.do_copy_tail "/data/crash/core.123"
           "/var/log/crashlog/CRASHREFINED/core.123" 0,
         Effect.hist_raise_event "CRASH" "REFINED" (some "/var/log/crashlog/CRASHREFINED") ""
           "CRASHREFINED"]) :=
  (crashlog_send_crash_records (demo_world true []) crash_event_dir [] "/data/crash/core.123"
    { crash_event_dir.priv with name := "REFINED" } (some "data0") none none "CRASHREFINED"
    "/var/log/crashlog/CRASHREFINED" crashlog_sender (some "/var/log/crashlog/CRASHREFINED")
    [Effect.generate_log_dir e_dir_mode.MODE_CRASH "CRASHREFINED"
       (some "/var/log/crashlog/CRASHREFINED"),
     Effect.generate_crashfile "/var/log/crashlog/CRASHREFINED" "CRASH" "CRASHREFINED"
       "REFINED" (some "data0") none none,
     Effect.space_available "/var/log/crashlog" 1000 true,
     Effect.do_copy_eof "/dev/kmsg" "/var/log/crashlog/CRASHREFINED/kmsg"]
    rfl rfl rfl (fun _ => ⟨rfl, rfl, by decide⟩) (fun h => absurd h (by decide)) rfl
    (fun _ _ => ⟨rfl, rfl⟩)).1

/-! ## Rotated files: the path and the scan loop -/

theorem strrchr_append_cons (a b : List Char) (c : Char) (hb : c ∉ b) :
    strrchr (a ++ c :: b) c = some a.length := by
  have hnone : strrchr b c = none := by
    induction b with
    | nil => rfl
    | cons x b ih =>
      have hx : x ≠ c := fun h => hb (by simp [h])
      have hb2 : c ∉ b := fun h => hb (by simp [h])
      simp [strrchr, ih hb2, hx]
  induction a with
  | nil => simp [strrchr, hnone]
  | cons x a ih => simp [strrchr, ih]

theorem strstr_dot_bracket (a b : List Char) (ha : ¬ ".[".data <:+: a) :
    strstr (a ++ '.' :: '[' :: b) ".[".data = some a.length := by
  induction a with
  | nil => simp [strstr, List.isPrefixOf]
  | cons x a ih =>
    have ha2 : ¬ ".[".data <:+: a := fun h => ha (h.trans (List.infix_cons (List.infix_refl a)))
    have hnot : List.isPrefixOf ".[".data (x :: (a ++ '.' :: '[' :: b)) = false := by
      cases a with
      | nil =>
        simp [List.isPrefixOf]
      | cons y a =>
        by_contra hc
        simp [List.isPrefixOf] at hc
        apply ha
        obtain ⟨h1, h2⟩ := hc
        subst h1 h2
        exact ⟨[], a, by simp⟩
    rw [List.cons_append, strstr, hnot]
    simp [ih ha2]

theorem get_log_rotation_parse_path (dir pfx sel : List Char)
    (hslash : '/' ∉ pfx) (hsel : '/' ∉ sel) (hdot : ¬ ".[".data <:+: pfx) :
    get_log_rotation_parse (dir ++ '/' :: (pfx ++ '.' :: '[' :: (sel ++ [']']))) =
      some (String.mk dir, pfx, sel) := by
  have h1 : strrchr (dir ++ '/' :: (pfx ++ '.' :: '[' :: (sel ++ [']']))) '/' =
      some dir.length := by
    apply strrchr_append_cons
    simp [hslash, hsel]
  simp [get_log_rotation_parse, h1, strstr_dot_bracket pfx (sel ++ [']']) hdot]

theorem get_log_rotation_scan_skip (w : World) (pfx sfx : List Char) (desdir : String)
    (file : String) (files : List String) (st : rotation_state)
    (hname : entry_name file ≠ none) (hm : entry_matches pfx file = false) :
    get_log_rotation_scan w pfx sfx desdir (file :: files) st =
      get_log_rotation_scan w pfx sfx desdir files st := by
  unfold entry_name at hname
  unfold entry_matches entry_name at hm
  rw [get_log_rotation_scan]
  cases h1 : strrchr file.data '/' with
  | none => simp [h1] at hname
  | some i =>
    simp only [h1, Option.map_some'] at hm
    cases h2 : strstr (List.drop (i + 1) file.data) pfx with
    | none => simp only [h2]
    | some k => simp [h2] at hm

theorem get_log_rotation_scan_match (w : World) (pfx sfx : List Char) (desdir : String)
    (file : String) (files : List String) (st : rotation_state) (n : Int)
    (hm : entry_matches pfx file = true) (hn : entry_number file = some n) :
    get_log_rotation_scan w pfx sfx desdir (file :: files) st =
      if strncmp_eq sfx "biggest".data 7 then
        if st.target_num = -1 ∨ n > st.target_num then
          get_log_rotation_scan w pfx sfx desdir files
            { st with target_file := some file, target_num := n }
        else get_log_rotation_scan w pfx sfx desdir files st
      else if strncmp_eq sfx "smallest".data 8 then
        if st.target_num = -1 ∨ n < st.target_num then
          get_log_rotation_scan w pfx sfx desdir files
            { st with target_file := some file, target_num := n }
        else get_log_rotation_scan w pfx sfx desdir files st
      else if strncmp_eq sfx "all".data 3 then
        match get_log_file w
            { st.toget with path := file, name := String.mk ((entry_name file).getD []) }
            desdir st.tr with
        | none => none
        | some tr1 =>
          get_log_rotation_scan w pfx sfx desdir files
            { st with
              toget := { st.toget with
                         path := file, name := String.mk ((entry_name file).getD []) }
              tr := tr1 }
      else get_log_rotation_scan w pfx sfx desdir files st := by
  unfold entry_matches entry_name at hm
  unfold entry_number entry_name at hn
  rw [get_log_rotation_scan]
  unfold entry_name
  cases h1 : strrchr file.data '/' with
  | none => simp [h1] at hm
  | some i =>
    simp only [h1, Option.map_some'] at hm hn
    cases h2 : strstr (List.drop (i + 1) file.data) pfx with
    | none => simp [h2] at hm
    | some k =>
      cases h3 : strrchr (List.drop (i + 1) file.data) '.' with
      | none => simp [h3] at hn
      | some j =>
        simp only [h3, Option.map_some', Option.some.injEq] at hn
        simp only [Option.map_some', Option.getD_some, h2, h3, hn]

/-- The scan loop with the selector `biggest`, from a state whose `target_num`
is `-1` or a number already seen, over entries with non-negative numbers. -/
theorem get_log_rotation_scan_biggest (w : World) (pfx sfx : List Char) (desdir : String)
    (hsfx : strncmp_eq sfx "biggest".data 7 = true)
    (files : List String) (st : rotation_state)
    (hok : ∀ f ∈ files, entry_ok pfx f)
    (hnum : ∀ f ∈ files, entry_matches pfx f = true → ∀ n, entry_number f = some n → 0 ≤ n)
    (hst : -1 ≤ st.target_num) :
    ∃ st1, get_log_rotation_scan w pfx sfx desdir files st = some st1 ∧
      st1.tr = st.tr ∧ st1.toget = st.toget ∧ st.target_num ≤ st1.target_num ∧
      (∀ g ∈ files, entry_matches pfx g = true → ∀ b, entry_number g = some b →
        b ≤ st1.target_num) ∧
      ((st1.target_num = st.target_num ∧ st1.target_file = st.target_file) ∨
        ∃ g ∈ files, entry_matches pfx g = true ∧ entry_number g = some st1.target_num ∧
          st1.target_file = some g) := by
  induction files generalizing st with
  | nil => exact ⟨st, rfl, rfl, rfl, le_refl _, by simp, Or.inl ⟨rfl, rfl⟩⟩
  | cons file files ih =>
    have hok2 : ∀ f ∈ files, entry_ok pfx f := fun f hf => hok f (List.mem_cons_of_mem _ hf)
    have hnum2 : ∀ f ∈ files, entry_matches pfx f = true → ∀ n, entry_number f = some n → 0 ≤ n :=
      fun f hf => hnum f (List.mem_cons_of_mem _ hf)
    obtain ⟨hname, hdot⟩ := hok file (List.mem_cons_self _ _)
    cases hm : entry_matches pfx file with
    | false =>
      rw [get_log_rotation_scan_skip w pfx sfx desdir file files st hname hm]
      obtain ⟨st1, h1, h2, h3, h4, h5, h6⟩ := ih st hok2 hnum2 hst
      refine ⟨st1, h1, h2, h3, h4, ?_, ?_⟩
      · intro g hg hgm b hb
        rcases List.mem_cons.mp hg with rfl | hg
        · rw [hm] at hgm; cases hgm
        · exact h5 g hg hgm b hb
      · rcases h6 with h6 | ⟨g, hg, h6⟩
        · exact Or.inl h6
        · exact Or.inr ⟨g, List.mem_cons_of_mem _ hg, h6⟩
    | true =>
      obtain ⟨n, hn⟩ := Option.ne_none_iff_exists'.mp (hdot hm)
      have hn0 : 0 ≤ n := hnum file (List.mem_cons_self _ _) hm n hn
      rw [get_log_rotation_scan_match w pfx sfx desdir file files st n hm hn, if_pos hsfx]
      by_cases hc : st.target_num = -1 ∨ n > st.target_num
      · rw [if_pos hc]
        obtain ⟨st1, h1, h2, h3, h4, h5, h6⟩ :=
          ih { st with target_file := some file, target_num := n } hok2 hnum2
            (by simp only; omega)
        simp only at h2 h3 h4 h6
        refine ⟨st1, h1, h2, h3, by omega, ?_, ?_⟩
        · intro g hg hgm b hb
          rcases List.mem_cons.mp hg with rfl | hg
          · rw [hn] at hb; cases hb; exact h4
          · exact h5 g hg hgm b hb
        · rcases h6 with ⟨h6, h7⟩ | ⟨g, hg, h6⟩
          · exact Or.inr ⟨file, List.mem_cons_self _ _, hm, by rw [h6]; exact hn, h7⟩
          · exact Or.inr ⟨g, List.mem_cons_of_mem _ hg, h6⟩
      · rw [if_neg hc]
        obtain ⟨st1, h1, h2, h3, h4, h5, h6⟩ := ih st hok2 hnum2 hst
        refine ⟨st1, h1, h2, h3, h4, ?_, ?_⟩
        · intro g hg hgm b hb
          rcases List.mem_cons.mp hg with rfl | hg
          · rw [hn] at hb; cases hb; omega
          · exact h5 g hg hgm b hb
        · rcases h6 with h6 | ⟨g, hg, h6⟩
          · exact Or.inl h6
          · exact Or.inr ⟨g, List.mem_cons_of_mem _ hg, h6⟩

theorem strncmp_smallest_not_biggest (sfx : List Char)
    (h : strncmp_eq sfx "smallest".data 8 = true) : strncmp_eq sfx "biggest".data 7 = false := by
  cases sfx with
  | nil => simp [strncmp_eq] at h
  | cons c sfx =>
    simp only [strncmp_eq, Bool.and_eq_true, beq_iff_eq] at h
    obtain ⟨hc, _⟩ := h
    subst hc
    simp [strncmp_eq]

/-- The scan loop with the selector `smallest`, from a state whose `target_num`
is `-1` or non-negative, over entries with non-negative numbers. -/
theorem get_log_rotation_scan_smallest (w : World) (pfx sfx : List Char) (desdir : String)
    (hsfx : strncmp_eq sfx "smallest".data 8 = true)
    (files : List String) (st : rotation_state)
    (hok : ∀ f ∈ files, entry_ok pfx f)
    (hnum : ∀ f ∈ files, entry_matches pfx f = true → ∀ n, entry_number f = some n → 0 ≤ n)
    (hst : st.target_num = -1 ∨ 0 ≤ st.target_num) :
    ∃ st1, get_log_rotation_scan w pfx sfx desdir files st = some st1 ∧
      st1.tr = st.tr ∧ st1.toget = st.toget ∧
      (st.target_num ≠ -1 → st1.target_num ≤ st.target_num ∧ 0 ≤ st1.target_num) ∧
      (∀ g ∈ files, entry_matches pfx g = true → ∀ b, entry_number g = some b →
        st1.target_num ≤ b ∧ 0 ≤ st1.target_num) ∧
      ((st1.target_num = st.target_num ∧ st1.target_file = st.target_file) ∨
        ∃ g ∈ files, entry_matches pfx g = true ∧ entry_number g = some st1.target_num ∧
          st1.target_file = some g) := by
  have hnb := strncmp_smallest_not_biggest sfx hsfx
  induction files generalizing st with
  | nil =>
    exact ⟨st, rfl, rfl, rfl, fun h => ⟨le_refl _, by omega⟩, by simp, Or.inl ⟨rfl, rfl⟩⟩
  | cons file files ih =>
    have hok2 : ∀ f ∈ files, entry_ok pfx f := fun f hf => hok f (List.mem_cons_of_mem _ hf)
    have hnum2 : ∀ f ∈ files, entry_matches pfx f = true → ∀ n, entry_number f = some n → 0 ≤ n :=
      fun f hf => hnum f (List.mem_cons_of_mem _ hf)
    obtain ⟨hname, hdot⟩ := hok file (List.mem_cons_self _ _)
    cases hm : entry_matches pfx file with
    | false =>
      rw [get_log_rotation_scan_skip w pfx sfx desdir file files st hname hm]
      obtain ⟨st1, h1, h2, h3, h4, h5, h6⟩ := ih st hok2 hnum2 hst
      refine ⟨st1, h1, h2, h3, h4, ?_, ?_⟩
      · intro g hg hgm b hb
        rcases List.mem_cons.mp hg with rfl | hg
        · rw [hm] at hgm; cases hgm
        · exact h5 g hg hgm b hb
      · rcases h6 with h6 | ⟨g, hg, h6⟩
        · exact Or.inl h6
        · exact Or.inr ⟨g, List.mem_cons_of_mem _ hg, h6⟩
    | true =>
      obtain ⟨n, hn⟩ := Option.ne_none_iff_exists'.mp (hdot hm)
      have hn0 : 0 ≤ n := hnum file (List.mem_cons_self _ _) hm n hn
      rw [get_log_rotation_scan_match w pfx sfx desdir file files st n hm hn, hnb, if_pos hsfx]
      simp only [Bool.false_eq_true, if_false]
      by_cases hc : st.target_num = -1 ∨ n < st.target_num
      · rw [if_pos hc]
        obtain ⟨st1, h1, h2, h3, h4, h5, h6⟩ :=
          ih { st with target_file := some file, target_num := n } hok2 hnum2
            (by simp only; omega)
        simp only at h2 h3 h4 h6
        have h4b := h4 (by omega)
        refine ⟨st1, h1, h2, h3, fun hne => by omega, ?_, ?_⟩
        · intro g hg hgm b hb
          rcases List.mem_cons.mp hg with rfl | hg
          · rw [hn] at hb; cases hb; exact h4b
          · exact h5 g hg hgm b hb
        · rcases h6 with ⟨h6, h7⟩ | ⟨g, hg, h6⟩
          · exact Or.inr ⟨file, List.mem_cons_self _ _, hm, by rw [h6]; exact hn, h7⟩
          · exact Or.inr ⟨g, List.mem_cons_of_mem _ hg, h6⟩
      · rw [if_neg hc]
        obtain ⟨st1, h1, h2, h3, h4, h5, h6⟩ := ih st hok2 hnum2 hst
        have h4b := h4 (by omega)
        refine ⟨st1, h1, h2, h3, h4, ?_, ?_⟩
        · intro g hg hgm b hb
          rcases List.mem_cons.mp hg with rfl | hg
          · rw [hn] at hb; cases hb; omega
          · exact h5 g hg hgm b hb
        · rcases h6 with h6 | ⟨g, hg, h6⟩
          · exact Or.inl h6
          · exact Or.inr ⟨g, List.mem_cons_of_mem _ hg, h6⟩

theorem get_log_rotation_of_scan (w : World) (log : log_t) (desdir : String) (tr : Trace)
    (dir : String) (pfx sfx : List Char) (files : List String) (st1 : rotation_state)
    (halloc : w.alloc tr log.path = true)
    (hparse : get_log_rotation_parse log.path.data = some (dir, pfx, sfx))
    (hls : w.lsdir tr dir 512 = lsdir_result.listed files)
    (hcount : 2 < files.length)
    (hscan : get_log_rotation_scan w pfx sfx desdir files
      { target_num := -1, target_file := none, toget := log, tr := tr } = some st1) :
    get_log_rotation w log desdir tr =
      if strncmp_eq sfx "all".data 3 then some st1.tr
      else
        match st1.target_file with
        | some f => get_log_file w { st1.toget with path := f } desdir st1.tr
        | none => some st1.tr := by
  simp only [get_log_rotation, asprintf, halloc, if_true, hparse, hls, gt_iff_lt, hcount, hscan]

theorem get_log_rotation_selects_by_number (w : World) (log : log_t) (desdir : String) (tr : Trace)
    (dir pfx : List Char) (files : List String)
    (hslash : '/' ∉ pfx) (hdot : ¬ ".[".data <:+: pfx)
    (halloc : w.alloc tr log.path = true)
    (hls : w.lsdir tr (String.mk dir) 512 = lsdir_result.listed files)
    (hcount : 2 < files.length)
    (hok : ∀ f ∈ files, entry_ok pfx f)
    (hnum : ∀ f ∈ files, entry_matches pfx f = true → ∀ n, entry_number f = some n → 0 ≤ n)
    (hdist : ∀ f ∈ files, ∀ g ∈ files, entry_matches pfx f = true →
      entry_matches pfx g = true → entry_number f = entry_number g → f = g)
    (f : String) (n : Int) (hf : f ∈ files) (hfm : entry_matches pfx f = true)
    (hfn : entry_number f = some n) :
    (log.path = String.mk (dir ++ '/' :: (pfx ++ ".[biggest]".data)) →
      (∀ g ∈ files, entry_matches pfx g = true → ∀ b, entry_number g = some b → b ≤ n) →
      get_log_rotation w log desdir tr = get_log_file w { log with path := f } desdir tr) ∧
    (log.path = String.mk (dir ++ '/' :: (pfx ++ ".[smallest]".data)) →
      (∀ g ∈ files, entry_matches pfx g = true → ∀ b, entry_number g = some b → n ≤ b) →
      get_log_rotation w log desdir tr = get_log_file w { log with path := f } desdir tr) := by
  have hn0 : 0 ≤ n := hnum f hf hfm n hfn
  refine ⟨?_, ?_⟩
  · intro hpath hmax
    have hparse : get_log_rotation_parse log.path.data =
        some (String.mk dir, pfx, "biggest".data) := by
      rw [hpath]
      exact get_log_rotation_parse_path dir pfx "biggest".data hslash (by decide) hdot
    obtain ⟨st1, h1, h2, h3, h4, h5, h6⟩ :=
      get_log_rotation_scan_biggest w pfx "biggest".data desdir rfl files
        { target_num := -1, target_file := none, toget := log, tr := tr } hok hnum (le_refl _)
    rw [get_log_rotation_of_scan w log desdir tr _ pfx _ files st1 halloc hparse hls hcount h1]
    have hle := h5 f hf hfm n hfn
    simp only at h2 h3 h4 h6
    rcases h6 with ⟨h6, _⟩ | ⟨g, hg, hgm, hgn, hgf⟩
    · omega
    · have hgle := hmax g hg hgm _ hgn
      have heq : st1.target_num = n := le_antisymm hgle hle
      have hfg : f = g := hdist f hf g hg hfm hgm (by rw [hfn, hgn, heq])
      subst hfg
      have hall : strncmp_eq "biggest".data "all".data 3 = false := rfl
      simp only [hall, Bool.false_eq_true, if_false, hgf, h2, h3]
  · intro hpath hmin
    have hparse : get_log_rotation_parse log.path.data =
        some (String.mk dir, pfx, "smallest".data) := by
      rw [hpath]
      exact get_log_rotation_parse_path dir pfx "smallest".data hslash (by decide) hdot
    obtain ⟨st1, h1, h2, h3, h4, h5, h6⟩ :=
      get_log_rotation_scan_smallest w pfx "smallest".data desdir rfl files
        { target_num := -1, target_file := none, toget := log, tr := tr } hok hnum (Or.inl rfl)
    rw [get_log_rotation_of_scan w log desdir tr _ pfx _ files st1 halloc hparse hls hcount h1]
    have hle := h5 f hf hfm n hfn
    simp only at h2 h3 h4 h6
    rcases h6 with ⟨h6, _⟩ | ⟨g, hg, hgm, hgn, hgf⟩
    · omega
    · have hgle := hmin g hg hgm _ hgn
      have heq : st1.target_num = n := le_antisymm hle.1 hgle
      have hfg : f = g := hdist f hf g hg hfm hgm (by rw [hfn, hgn, heq])
      subst hfg
      have hall : strncmp_eq "smallest".data "all".data 3 = false := rfl
      simp only [hall, Bool.false_eq_true, if_false, hgf, h2, h3]

theorem entry_number_of_trailing (file : String) (n : Nat)
    (h : entry_trailing file = some n) (hn : n ≤ 2147483647) :
    entry_number file = some (n : Int) := by
  unfold entry_trailing at h
  unfold entry_number
  cases h1 : entry_name file with
  | none => simp [h1] at h
  | some name =>
    simp only [h1] at h ⊢
    cases h2 : strrchr name '.' with
    | none => simp [h2] at h
    | some j =>
      simp only [h2] at h
      simp only [Option.map_some', Option.some.injEq]
      exact atoi_decimal (String.mk (name.drop (j + 1))) n h hn

/-- Counterexample to C5: the entries `f.2` and `f.3000000000` carry distinct
non-negative trailing integers and the listing has three entries, but with the
selector `biggest` the file copied is `/d/f.2`: `atoi` turns `3000000000` into
the `int` `-1294967296`. -/
theorem get_log_rotation_biggest_beyond_int :
    entry_trailing "/d/f.2" = some 2 ∧
    entry_trailing "/d/f.3000000000" = some 3000000000 ∧
    entry_matches "f".data "/d/." = false ∧
    entry_number "/d/f.3000000000" = some (-1294967296) ∧
    get_log_rotation (demo_world true rotation_files_beyond_int) (rotation_log "biggest")
        "/dest" [] =
      some [Effect.do_copy_tail "/d/f.2" "/dest/hvlog" 0] := by
  decide

/-- C5 (amended): for a listing of more than two entries, in whatever order,
in which every entry has a `/` and the entries with a file name containing the
prefix end, after their last `.`, in pairwise distinct decimal integers of at
most 2147483647, `get_log_rotation` with the path `<dir>/<prefix>.[biggest]`
behaves as the one call of `get_log_file` on the matching entry `f` whose
trailing integer is greatest, and with `<dir>/<prefix>.[smallest]` as the one
call on the matching entry whose trailing integer is least; the log passed on
keeps the name, the type and the `lines` of the original log. -/
theorem get_log_rotation_extremum (w : World) (log : log_t) (desdir : String) (tr : Trace)
    (dir pfx : List Char) (files : List String)
    (hslash : '/' ∉ pfx) (hdot : ¬ ".[".data <:+: pfx)
    (halloc : w.alloc tr log.path = true)
    (hls : w.lsdir tr (String.mk dir) 512 = lsdir_result.listed files)
    (hcount : 2 < files.length)
    (hname : ∀ f ∈ files, entry_name f ≠ none)
    (hnum : ∀ f ∈ files, entry_matches pfx f = true →
      ∃ n, entry_trailing f = some n ∧ n ≤ 2147483647)
    (hdist : ∀ f ∈ files, ∀ g ∈ files, entry_matches pfx f = true →
      entry_matches pfx g = true → entry_trailing f = entry_trailing g → f = g)
    (f : String) (n : Nat) (hf : f ∈ files) (hfm : entry_matches pfx f = true)
    (hfn : entry_trailing f = some n) :
    (log.path = String.mk (dir ++ '/' :: (pfx ++ ".[biggest]".data)) →
      (∀ g ∈ files, entry_matches pfx g = true → ∀ b, entry_trailing g = some b → b ≤ n) →
      get_log_rotation w log desdir tr = get_log_file w { log with path := f } desdir tr) ∧
    (log.path = String.mk (dir ++ '/' :: (pfx ++ ".[smallest]".data)) →
      (∀ g ∈ files, entry_matches pfx g = true → ∀ b, entry_trailing g = some b → n ≤ b) →
      get_log_rotation w log desdir tr = get_log_file w { log with path := f } desdir tr) := by
  have hnumber : ∀ g ∈ files, entry_matches pfx g = true →
      ∃ m : Nat, entry_trailing g = some m ∧ entry_number g = some (m : Int) := by
    intro g hg hgm
    obtain ⟨m, hm, hle⟩ := hnum g hg hgm
    exact ⟨m, hm, entry_number_of_trailing g m hm hle⟩
  have hok : ∀ g ∈ files, entry_ok pfx g := by
    intro g hg
    refine ⟨hname g hg, fun hgm => ?_⟩
    obtain ⟨m, _, hm⟩ := hnumber g hg hgm
    simp [hm]
  have hnum2 : ∀ g ∈ files, entry_matches pfx g = true → ∀ k, entry_number g = some k →
      0 ≤ k := by
    intro g hg hgm k hk
    obtain ⟨m, _, hm⟩ := hnumber g hg hgm
    rw [hm] at hk
    cases hk
    omega
  have hdist2 : ∀ g ∈ files, ∀ h ∈ files, entry_matches pfx g = true →
      entry_matches pfx h = true → entry_number g = entry_number h → g = h := by
    intro g hg h hh hgm hhm heq
    obtain ⟨m1, ht1, hm1⟩ := hnumber g hg hgm
    obtain ⟨m2, ht2, hm2⟩ := hnumber h hh hhm
    rw [hm1, hm2] at heq
    have : m1 = m2 := by
      simp only [Option.some.injEq] at heq
      omega
    exact hdist g hg h hh hgm hhm (by rw [ht1, ht2, this])
  obtain ⟨n0, hn0, hfnum⟩ := hnumber f hf hfm
  have hnn : n0 = n := by
    rw [hfn] at hn0
    cases hn0
    rfl
  subst hnn
  have hmain := get_log_rotation_selects_by_number w log desdir tr dir pfx files hslash hdot
    halloc hls hcount hok hnum2 hdist2 f (n0 : Int) hf hfm hfnum
  refine ⟨fun hpath hmax => hmain.1 hpath ?_, fun hpath hmin => hmain.2 hpath ?_⟩
  · intro g hg hgm b hb
    obtain ⟨m, ht, hm⟩ := hnumber g hg hgm
    rw [hm] at hb
    cases hb
    have := hmax g hg hgm m ht
    omega
  · intro g hg hgm b hb
    obtain ⟨m, ht, hm⟩ := hnumber g hg hgm
    rw [hm] at hb
    cases hb
    have := hmin g hg hgm m ht
    omega

/-- Witness of C5 (amended): the listing `rotation_files` of `/d`: `biggest`
selects `/d/f.10`, not `/d/f.9`, and `smallest` selects `/d/f.1`. -/
theorem get_log_rotation_extremum_witness :
    get_log_rotation (demo_world true rotation_files) (rotation_log "biggest") "/dest" [] =
      some [Effect.do_copy_tail "/d/f.10" "/dest/hvlog" 0] ∧
    get_log_rotation (demo_world true rotation_files) (rotation_log "smallest") "/dest" [] =
      some [Effect.do_copy_tail "/d/f.1" "/dest/hvlog" 0] :=
  ⟨((get_log_rotation_extremum (demo_world true rotation_files) (rotation_log "biggest") "/dest"
      [] "/d".data "f".data rotation_files (by decide) (by decide) rfl rfl (by decide)
      (by decide) (by decide) (by decide) "/d/f.10" 10 (by decide) (by decide)
      (by decide)).1 rfl (by decide)).trans (by decide),
   ((get_log_rotation_extremum (demo_world true rotation_files) (rotation_log "smallest") "/dest"
      [] "/d".data "f".data rotation_files (by decide) (by decide) rfl rfl (by decide)
      (by decide) (by decide) (by decide) "/d/f.1" 1 (by decide) (by decide)
      (by decide)).2 rfl (by decide)).trans (by decide)⟩

/-! ## Rotated files: the selector `all` -/

theorem get_log_rotation_scan_all (w : World) (pfx sfx : List Char) (desdir : String)
    (hb : strncmp_eq sfx "biggest".data 7 = false)
    (hs : strncmp_eq sfx "smallest".data 8 = false)
    (ha : strncmp_eq sfx "all".data 3 = true)
    (log : log_t) (files : List String) (st : rotation_state)
    (hok : ∀ f ∈ files, entry_ok pfx f)
    (htype : st.toget.type = log.type) (hlines : st.toget.lines = log.lines) :
    (get_log_rotation_scan w pfx sfx desdir files st).map (fun st1 => st1.tr) =
      get_log_file_each w desdir (rotation_all_targets log pfx files) st.tr := by
  induction files generalizing st with
  | nil => rfl
  | cons file files ih =>
    have hok2 : ∀ f ∈ files, entry_ok pfx f := fun f hf => hok f (List.mem_cons_of_mem _ hf)
    obtain ⟨hname, hdot⟩ := hok file (List.mem_cons_self _ _)
    cases hm : entry_matches pfx file with
    | false =>
      rw [get_log_rotation_scan_skip w pfx sfx desdir file files st hname hm]
      have : rotation_all_targets log pfx (file :: files) = rotation_all_targets log pfx files := by
        simp [rotation_all_targets, List.filter_cons, hm]
      rw [this]
      exact ih st hok2 htype hlines
    | true =>
      obtain ⟨n, hn⟩ := Option.ne_none_iff_exists'.mp (hdot hm)
      rw [get_log_rotation_scan_match w pfx sfx desdir file files st n hm hn, hb, hs, ha]
      simp only [Bool.false_eq_true, if_false, if_true]
      have htarget : ({ st.toget with
            path := file, name := String.mk ((entry_name file).getD []) } : log_t) =
          { log with path := file, name := String.mk ((entry_name file).getD []) } := by
        simp only [htype, hlines]
      have hcons : rotation_all_targets log pfx (file :: files) =
          { log with path := file, name := String.mk ((entry_name file).getD []) } ::
            rotation_all_targets log pfx files := by
        simp [rotation_all_targets, List.filter_cons, hm]
      rw [hcons, get_log_file_each, htarget]
      cases hget : get_log_file w
          { log with path := file, name := String.mk ((entry_name file).getD []) }
          desdir st.tr with
      | none => rfl
      | some tr1 => exact ih _ hok2 rfl rfl

theorem get_log_rotation_scan_select (w : World) (pfx sfx : List Char) (desdir : String)
    (hsel : strncmp_eq sfx "biggest".data 7 = true ∨ strncmp_eq sfx "smallest".data 8 = true)
    (files : List String) (st st1 : rotation_state)
    (h : get_log_rotation_scan w pfx sfx desdir files st = some st1) :
    st1.tr = st.tr ∧ st1.toget = st.toget ∧
      (st1.target_file = st.target_file ∨ ∃ g ∈ files, st1.target_file = some g) := by
  have hsel2 : strncmp_eq sfx "biggest".data 7 = false → strncmp_eq sfx "smallest".data 8 = true :=
    fun hb => hsel.resolve_left (by simp [hb])
  induction files generalizing st with
  | nil =>
    simp only [get_log_rotation_scan] at h
    cases h
    exact ⟨rfl, rfl, Or.inl rfl⟩
  | cons file files ih =>
    have keep : ∀ st2 : rotation_state, st2.tr = st.tr → st2.toget = st.toget →
        (st2.target_file = st.target_file ∨ st2.target_file = some file) →
        get_log_rotation_scan w pfx sfx desdir files st2 = some st1 →
        st1.tr = st.tr ∧ st1.toget = st.toget ∧
          (st1.target_file = st.target_file ∨ ∃ g ∈ file :: files, st1.target_file = some g) := by
      intro st2 e1 e2 e3 h2
      obtain ⟨a, b, c⟩ := ih st2 h2
      refine ⟨a.trans e1, b.trans e2, ?_⟩
      rcases c with c | ⟨g, hg, c⟩
      · rcases e3 with e3 | e3
        · exact Or.inl (c.trans e3)
        · exact Or.inr ⟨file, List.mem_cons_self _ _, c.trans e3⟩
      · exact Or.inr ⟨g, List.mem_cons_of_mem _ hg, c⟩
    simp only [get_log_rotation_scan] at h
    split at h
    · simp at h
    · split at h
      · exact keep st rfl rfl (Or.inl rfl) h
      · split at h
        · simp at h
        · split at h
          · split at h
            · refine keep _ ?_ ?_ ?_ h
              · rfl
              · rfl
              · exact Or.inr rfl
            · exact keep st rfl rfl (Or.inl rfl) h
          · rename_i hb
            rw [if_pos (hsel2 (by simpa using hb))] at h
            split at h
            · refine keep _ ?_ ?_ ?_ h
              · rfl
              · rfl
              · exact Or.inr rfl
            · exact keep st rfl rfl (Or.inl rfl) h

/-- Counterexample to C9: the listing has the two entries `/d/f.1` and `/d/f.2`,
both with a file name containing the prefix `f`, the path is `/d/f.[all]`, and
`get_log_rotation` runs no collection at all, while one collection for each of
the two entries would copy both files. -/
theorem get_log_rotation_all_two_entries :
    rotation_all_targets (rotation_log "all") "f".data ["/d/f.1", "/d/f.2"] =
      [{ rotation_log "all" with path := "/d/f.1", name := "f.1" },
       { rotation_log "all" with path := "/d/f.2", name := "f.2" }] ∧
    get_log_file_each (demo_world true ["/d/f.1", "/d/f.2"]) "/dest"
        (rotation_all_targets (rotation_log "all") "f".data ["/d/f.1", "/d/f.2"]) [] =
      some [Effect.do_copy_tail "/d/f.1" "/dest/f.1" 0,
            Effect.do_copy_tail "/d/f.2" "/dest/f.2" 0] ∧
    get_log_rotation (demo_world true ["/d/f.1", "/d/f.2"]) (rotation_log "all") "/dest" [] =
      some [] := by
  decide

/-- C9 (amended): for the path `<dir>/<prefix>.[all]` and a listing of more than
two entries on which the scan has defined behaviour, `get_log_rotation` behaves
as one call of `get_log_file` for each listed entry whose file name contains
the prefix, in the order of the listing, each with the entry as source and the
entry's own file name as name, and none for the other entries; the collections
of a reordered listing are those of the listing, reordered.  For a listing of
at most two entries no collection is run.  With the selector `biggest` or
`smallest`, for any listing, the behaviour is undefined, or no collection is
run, or exactly one call of `get_log_file` is made, on a listed entry. -/
theorem get_log_rotation_all (w : World) (log : log_t) (desdir : String) (tr : Trace)
    (dir pfx sel : List Char) (files : List String)
    (hslash : '/' ∉ pfx) (hdot : ¬ ".[".data <:+: pfx)
    (hpath : log.path = String.mk (dir ++ '/' :: (pfx ++ '.' :: '[' :: (sel ++ [']']))))
    (halloc : w.alloc tr log.path = true)
    (hls : w.lsdir tr (String.mk dir) 512 = lsdir_result.listed files) :
    (sel = "all".data → 2 < files.length → (∀ f ∈ files, entry_ok pfx f) →
      get_log_rotation w log desdir tr =
        get_log_file_each w desdir (rotation_all_targets log pfx files) tr) ∧
    (sel = "all".data → files.length ≤ 2 → get_log_rotation w log desdir tr = some tr) ∧
    (∀ files2 : List String, files2.Perm files →
      (rotation_all_targets log pfx files2).Perm (rotation_all_targets log pfx files)) ∧
    (sel = "biggest".data ∨ sel = "smallest".data →
      get_log_rotation w log desdir tr = none ∨
      get_log_rotation w log desdir tr = some tr ∨
      ∃ f ∈ files, get_log_rotation w log desdir tr =
        get_log_file w { log with path := f } desdir tr) := by
  have hsl : sel = "all".data ∨ sel = "biggest".data ∨ sel = "smallest".data → '/' ∉ sel := by
    rintro (h | h | h) <;> subst h <;> decide
  refine ⟨?_, ?_, ?_, ?_⟩
  · intro hsel hcount hok
    have hparse : get_log_rotation_parse log.path.data = some (String.mk dir, pfx, sel) := by
      rw [hpath]
      exact get_log_rotation_parse_path dir pfx sel hslash (hsl (Or.inl hsel)) hdot
    subst hsel
    have hscan := get_log_rotation_scan_all w pfx "all".data desdir rfl rfl rfl log files
      { target_num := -1, target_file := none, toget := log, tr := tr } hok rfl rfl
    cases hst : get_log_rotation_scan w pfx "all".data desdir files
        { target_num := -1, target_file := none, toget := log, tr := tr } with
    | none =>
      rw [hst] at hscan
      simp only [get_log_rotation, asprintf, halloc, if_true, hparse, hls, gt_iff_lt, hcount, hst]
      exact hscan
    | some st1 =>
      rw [hst] at hscan
      rw [get_log_rotation_of_scan w log desdir tr _ pfx _ files st1 halloc hparse hls hcount hst]
      have hall : strncmp_eq "all".data "all".data 3 = true := rfl
      rw [if_pos hall]
      exact hscan
  · intro hsel hcount
    have hparse : get_log_rotation_parse log.path.data = some (String.mk dir, pfx, sel) := by
      rw [hpath]
      exact get_log_rotation_parse_path dir pfx sel hslash (hsl (Or.inl hsel)) hdot
    subst hsel
    have hc : ¬ 2 < files.length := by omega
    have hall : strncmp_eq "all".data "all".data 3 = true := rfl
    simp only [get_log_rotation, asprintf, halloc, if_true, hparse, hls, gt_iff_lt, hc, if_false,
      hall]
  · intro files2 hperm
    exact (hperm.filter _).map _
  · intro hsel
    have hparse : get_log_rotation_parse log.path.data = some (String.mk dir, pfx, sel) := by
      rw [hpath]
      exact get_log_rotation_parse_path dir pfx sel hslash (hsl (Or.inr hsel)) hdot
    have hnall : strncmp_eq sel "all".data 3 = false := by
      rcases hsel with h | h <;> subst h <;> rfl
    have hsel2 : strncmp_eq sel "biggest".data 7 = true ∨
        strncmp_eq sel "smallest".data 8 = true := by
      rcases hsel with h | h
      · subst h; exact Or.inl rfl
      · subst h; exact Or.inr rfl
    by_cases hcount : 2 < files.length
    · cases hst : get_log_rotation_scan w pfx sel desdir files
          { target_num := -1, target_file := none, toget := log, tr := tr } with
      | none =>
        left
        simp only [get_log_rotation, asprintf, halloc, if_true, hparse, hls, gt_iff_lt, hcount,
          hst]
      | some st1 =>
        right
        rw [get_log_rotation_of_scan w log desdir tr _ pfx _ files st1 halloc hparse hls hcount
          hst, hnall]
        obtain ⟨h1, h2, h3⟩ := get_log_rotation_scan_select w pfx sel desdir hsel2 files _ st1 hst
        simp only at h1 h2 h3
        simp only [Bool.false_eq_true, if_false]
        rcases h3 with h3 | ⟨g, hg, h3⟩
        · left
          simp only [h3, h1]
        · right
          exact ⟨g, hg, by simp only [h3, h1, h2]⟩
    · right
      left
      simp only [get_log_rotation, asprintf, halloc, if_true, hparse, hls, gt_iff_lt, hcount,
        if_false, hnall, Bool.false_eq_true]

/-- Witness of C9 (amended): the listing `rotation_files` of `/d` and the path
`/d/f.[all]`: the four rotated files are copied, in the order of the listing. -/
theorem get_log_rotation_all_witness :
    get_log_rotation (demo_world true rotation_files) (rotation_log "all") "/dest" [] =
      some [Effect.do_copy_tail "/d/f.9" "/dest/f.9" 0,
            Effect.do_copy_tail "/d/f.10" "/dest/f.10" 0,
            Effect.do_copy_tail "/d/f.1" "/dest/f.1" 0,
            Effect.do_copy_tail "/d/f.2" "/dest/f.2" 0] :=
  ((get_log_rotation_all (demo_world true rotation_files) (rotation_log "all") "/dest" []
    "/d".data "f".data "all".data rotation_files (by decide) (by decide) rfl rfl rfl).1 rfl
    (by decide) (by decide)).trans (by decide)

/-! ## Guest events -/

end Acrnprobe
